import Mathlib

/-!
Verification of the `httppipelining` Go package.

The package probes an HTTP/1.1 server for pipelining support: it writes N
probe requests back-to-back on one connection, flushes once, then reads the
N responses in request order.  A minimal response parser extracts the status
code and skips exactly the declared `Content-Length` body bytes.

The embedding below models the byte stream as a `List Char` (one `Char` per
byte; all protocol-relevant bytes are ASCII), I/O errors as an explicit
error type distinguishing Go's `io.EOF` from every other error, and the
concurrent probe engine both as the sequential function it collapses to
(the channel discipline admits a single interleaving of prober calls, see
`mstep`) and as an explicit deterministic small-step machine.
-/

namespace HttpPipelining

/-- Errors produced while reading a response.  `eof` is Go's `io.EOF`
    (which `optionsProber.ReadRequest` treats specially); `other` is any
    other error, carrying its message. -/
inductive PErr where
  | eof : PErr
  | other : String → PErr
deriving DecidableEq, Repr

instance {ε α : Type} [DecidableEq ε] [DecidableEq α] : DecidableEq (Except ε α) :=
  fun a b =>
    match a, b with
    | .ok x, .ok y =>
      if h : x = y then .isTrue (by rw [h]) else .isFalse (fun hc => by cases hc; exact h rfl)
    | .error x, .error y =>
      if h : x = y then .isTrue (by rw [h]) else .isFalse (fun hc => by cases hc; exact h rfl)
    | .ok _, .error _ => .isFalse (fun hc => by cases hc)
    | .error _, .ok _ => .isFalse (fun hc => by cases hc)

/-- A byte stream (the unread suffix of the connection's read side). -/
abbrev Stream' := List Char

/-- `bufio.Reader.ReadString('\n')` / `ReadSlice('\n')`: split the stream
    at the first newline, returning the line including its `'\n'` and the
    rest.  `none` models the `io.EOF` case, in which Go has consumed the
    whole stream while searching for the delimiter. -/
def splitAtNewline : Stream' → Option (List Char × Stream')
  | [] => none
  | c :: cs =>
    if c = '\n' then some ([c], cs)
    else
      match splitAtNewline cs with
      | none => none
      | some (l, r) => some (c :: l, r)

/-- Match a literal format prefix exactly (`fmt.Sscanf` literal text). -/
def stripPfx : List Char → List Char → Option (List Char)
  | [], l => some l
  | _ :: _, [] => none
  | p :: ps, c :: cs => if c = p then stripPfx ps cs else none

/-- Space-skipping of `fmt`'s scanner: a space in the format, and the
    implicit skip before a numeric verb, consume spaces and tabs but never
    a newline. -/
def dropSpaces (l : List Char) : List Char :=
  l.dropWhile (fun c => c == ' ' || c == '\t')

/-- Fold decimal digit characters into a number, stopping at the first
    non-digit (the digit-consuming core of `%d`). -/
def scanDigits (acc : Nat) : List Char → Nat × List Char
  | [] => (acc, [])
  | c :: cs =>
    if '0' ≤ c ∧ c ≤ '9' then scanDigits (acc * 10 + (c.toNat - 48)) cs
    else (acc, c :: cs)

/-- `%d`: optional sign followed by at least one decimal digit; `none` is a
    scan error.  (Go's `int` overflow for astronomically long digit strings
    is not modelled; the theorems below restrict numbers to the `int64`
    range where the two agree.) -/
def scanInt (l : List Char) : Option (Int × List Char) :=
  match l with
  | [] => none
  | c :: cs =>
    if c = '-' then
      match cs with
      | [] => none
      | c2 :: _ =>
        if '0' ≤ c2 ∧ c2 ≤ '9' then
          let p := scanDigits 0 cs
          some (-(p.1 : Int), p.2)
        else none
    else if c = '+' then
      match cs with
      | [] => none
      | c2 :: _ =>
        if '0' ≤ c2 ∧ c2 ≤ '9' then
          let p := scanDigits 0 cs
          some ((p.1 : Int), p.2)
        else none
    else if '0' ≤ c ∧ c ≤ '9' then
      let p := scanDigits 0 l
      some ((p.1 : Int), p.2)
    else none

/-- `fmt.Sscanf(line, "HTTP/1.1 %d", &status)`: literal `HTTP/1.1`, then a
    space (zero or more input spaces), then an integer; the rest of the
    line is ignored.  `none` covers both a non-nil scan error and `n != 1`. -/
def scanStatusLine (line : List Char) : Option Int :=
  match stripPfx ("HTTP/1.1".toList) line with
  | none => none
  | some rest =>
    match scanInt (dropSpaces rest) with
    | none => none
    | some p => some p.1

/-- ASCII lowercasing of one byte (`bytes.ToLower` acts bytewise on ASCII). -/
def asciiLower (c : Char) : Char :=
  if 'A' ≤ c ∧ c ≤ 'Z' then Char.ofNat (c.toNat + 32) else c

/-- ASCII uppercasing of one byte (used only to state case-insensitivity:
    it generates the case variants of a header name). -/
def asciiUpper (c : Char) : Char :=
  if 'a' ≤ c ∧ c ≤ 'z' then Char.ofNat (c.toNat - 32) else c

/-- Recase a string: entry `true` of the mask picks the uppercase form of
    the corresponding character, `false` the lowercase form; a short mask
    leaves the tail unchanged.  Ranging over all masks ranges over all
    ASCII case variants of a word. -/
def recase : List Bool → List Char → List Char
  | _, [] => []
  | [], l => l
  | u :: us, c :: cs => (if u then asciiUpper c else asciiLower c) :: recase us cs

/-- Characters whose recased forms lowercase back to the original's
    lowercase form and never become a newline (every character of a
    `Content-Length` header satisfies this). -/
def caseSafe (c : Char) : Prop :=
  asciiLower (asciiUpper c) = asciiLower c ∧ asciiLower (asciiLower c) = asciiLower c
    ∧ asciiUpper c ≠ '\n' ∧ asciiLower c ≠ '\n'

instance (c : Char) : Decidable (caseSafe c) := by unfold caseSafe; infer_instance

/-- `fmt.Sscanf(value, "%d\r\n", &contentLength)` applied to the
    already-lowercased remainder of a `Content-Length` header line (which
    always ends in `'\n'`): an integer, then the format's trailing newline,
    which absorbs spaces and an optional `'\r'` before the `'\n'`. -/
def scanCLValue (value : List Char) : Option Int :=
  match scanInt (dropSpaces value) with
  | none => none
  | some p =>
    match dropSpaces p.2 with
    | '\r' :: '\n' :: _ => some p.1
    | '\n' :: _ => some p.1
    | _ => none

/-- The body of the header loop of `parseStatus` (src/httppipelining.go
    lines 181-199), applied to one complete header `line` (ending in
    `'\n'`) with the current `contentLength`/`lengthFound` state:
    `.ok none` is the `break` on the blank `"\r\n"` line, `.ok (some st)`
    is `continue` with the new state, `.error` aborts the parse. -/
def lineStep (line : List Char) (cl : Int) (found : Bool) :
    Except PErr (Option (Int × Bool)) :=
  if line = ['\r', '\n'] then .ok none
  else if found ∨ (line.head? ≠ some 'C' ∧ line.head? ≠ some 'c') then .ok (some (cl, found))
  else
    let lower := line.map asciiLower
    if ("content-length:".toList).isPrefixOf lower then
      match scanCLValue (lower.drop 15) with
      | none => .error (.other "bad content-length")
      | some v => .ok (some (v, true))
    else .ok (some (cl, found))

/-- The header loop of `parseStatus` (src/httppipelining.go lines 175-200).
    `ReadSlice('\n')` on the default `bufio.NewReader` (4096-byte buffer)
    is realised incrementally: `cur` holds the bytes of the current line
    read so far, in reverse; a complete line always ends in `'\n'` and is
    handed to `lineStep`.  A line whose first 4096 bytes contain no
    newline makes `ReadSlice` fail with `bufio.ErrBufferFull` (a non-EOF
    error), consuming those 4096 bytes; a line with its `'\n'` within
    4096 bytes succeeds.  Returns the content length and the stream
    positioned after the blank `"\r\n"` terminator line, or an error
    (`eof` when the stream ends mid-headers before the buffer fills, in
    which case Go has consumed everything). -/
def headerLoop : Stream' → List Char → Int → Bool → (Except PErr Int) × Stream'
  | [], _, _, _ => (.error .eof, [])
  | c :: cs, cur, cl, found =>
    if c = '\n' then
      match lineStep (cur.reverse ++ ['\n']) cl found with
      | .error e => (.error e, cs)
      | .ok none => (.ok cl, cs)
      | .ok (some st) => headerLoop cs [] st.1 st.2
    else if cur.length + 1 < 4096 then headerLoop cs (c :: cur) cl found
    else (.error (.other "bufio: buffer full"), cs)

/-- `bufio.Reader.Discard(n)`: drop `n` bytes; `io.EOF` (with the whole
    stream consumed) if fewer are available, `ErrNegativeCount` if `n < 0`. -/
def discardN (n : Int) (s : Stream') : (Except PErr Unit) × Stream' :=
  if n < 0 then (.error (.other "bufio: negative count"), s)
  else if n.toNat ≤ s.length then (.ok (), s.drop n.toNat)
  else (.error .eof, [])

/-- `parseStatus` (src/httppipelining.go lines 160-206): read the status
    line, scan headers for the first `Content-Length`, discard the body.
    Returns the status code and the stream positioned at the next
    response. -/
def parseStatus (s : Stream') : (Except PErr Int) × Stream' :=
  match splitAtNewline s with
  | none => (.error .eof, [])
  | some (line, rest) =>
    match scanStatusLine line with
    | none => (.error (.other "malformed status line"), rest)
    | some status =>
      match headerLoop rest [] 0 false with
      | (.error e, rest') => (.error e, rest')
      | (.ok cl, rest') =>
        match discardN cl rest' with
        | (.error e, rest'') => (.error e, rest'')
        | (.ok _, rest'') => (.ok status, rest'')

/-- A deterministic `Prober` driven against an in-memory stream.
    `writeErr id` is the error (if any) returned by `WriteRequest(id, bw)`;
    it is a pure function of `id` because writes to the in-memory buffered
    sink depend on nothing else.  `readReq id s` is `ReadRequest(id, br)`
    on a reader whose unread input is `s`, returning the result and the
    unread remainder. -/
structure GoProber where
  numRequests : Nat
  writeErr : Nat → Option PErr
  readReq : Nat → Stream' → (Except PErr Bool) × Stream'

/-- The response-processing loop of `Probe` (src/httppipelining.go lines
    103-114).  The writer goroutine has already queued the per-id write
    outcomes (ids `i, i+1, ...`, `k` of them remaining) on the buffered
    `writes` channel; the loop checks each write outcome, then reads the
    matching response, accumulating `available`. -/
def probeLoop (p : GoProber) : Nat → Nat → Stream' → Bool → (Except PErr Bool) × Stream'
  | 0, _, s, avail => (.ok avail, s)
  | k + 1, i, s, avail =>
    match p.writeErr i with
    | some e => (.error e, s)
    | none =>
      match p.readReq i s with
      | (.error e, s') => (.error e, s')
      | (.ok expected, s') => probeLoop p k (i + 1) s' (avail && expected)

/-- `Probe` (src/httppipelining.go lines 80-117).  The writer goroutine
    writes requests `0..n-1` (the `writes` channel has capacity `n`, so it
    never blocks), then sends the result of the single `bw.Flush()` on the
    unbuffered `flush` channel; the main goroutine first receives that
    flush result, then runs the read loop.  `flushErr` is the flush
    outcome (always `none` for an in-memory sink).  The `.error e` result
    models Go's `(false, err)` return; `.ok v` models `(v, nil)`.  The
    final stream is returned for bookkeeping. -/
def Probe (p : GoProber) (flushErr : Option PErr) (s : Stream') : (Except PErr Bool) × Stream' :=
  match flushErr with
  | some e => (.error e, s)
  | none => probeLoop p p.numRequests 0 s true

/-- `optionsProber.ReadRequest` (src/httppipelining.go lines 140-158):
    first the guard — Go panics on `id ≥ 2`, before reading anything; the
    model returns a distinguished `panic` marker there, which no theorem
    relies on (`Probe` with this two-request prober only calls ids 0 and
    1).  For `id < 2`: parse one response; convert `io.EOF` to
    `(false, nil)`; wrap any other parse error; otherwise compare the
    status against the expectation for `id` (200 for id 0, 400 for
    id 1). -/
def optionsReadRequest (id : Nat) (s : Stream') : (Except PErr Bool) × Stream' :=
  if 2 ≤ id then (.error (.other ("panic: invalid id: " ++ toString id)), s)
  else
    match parseStatus s with
    | (.error .eof, s') => (.ok false, s')
    | (.error (.other m), s') =>
      (.error (.other ("malformed request: " ++ m ++ " (id=" ++ toString id ++ ")")), s')
    | (.ok code, s') => (.ok (if id = 0 then code == 200 else code == 400), s')

/-- The default two-request `optionsProber` (src/httppipelining.go lines
    119-158) as a `GoProber`.  `WriteRequest` is `fmt.Fprintf` into a
    buffered writer over an in-memory sink, which cannot fail, so
    `writeErr` is `none`. -/
def optionsProberGo : GoProber where
  numRequests := 2
  writeErr := fun _ => none
  readReq := optionsReadRequest

/-- A prober issuing no requests at all (a degenerate `Prober` instance,
    used to exercise `Probe` with `NumRequests() == 0`). -/
def emptyProber : GoProber where
  numRequests := 0
  writeErr := fun _ => none
  readReq := fun _ s => (.ok true, s)

/-- Results of reading responses for ids `i, i+1, ...` (`k` of them) in
    order, threading the stream; the hypothetical full read sequence used
    to state properties of `Probe`. -/
def readSeq (p : GoProber) : Nat → Nat → Stream' → List (Except PErr Bool) × Stream'
  | 0, _, s => ([], s)
  | k + 1, i, s =>
    let r := p.readReq i s
    let rest := readSeq p k (i + 1) r.2
    (r.1 :: rest.1, rest.2)

/-! ### Well-formed response streams

To state universally quantified properties of `parseStatus` we need an
encoder of well-formed HTTP/1.1 responses.  `natDigits` renders a number in
decimal; `encodeRespHead` builds status line, headers and blank line with a
declared `Content-Length`; `encodeResp` appends a body of exactly the
declared length. -/

/-- The decimal digit character for `d < 10` (`'0'` as a dummy above). -/
def digitChar (d : Nat) : Char :=
  match d with
  | 0 => '0' | 1 => '1' | 2 => '2' | 3 => '3' | 4 => '4'
  | 5 => '5' | 6 => '6' | 7 => '7' | 8 => '8' | 9 => '9'
  | _ + 10 => '0'

/-- Render `n` in decimal in front of `acc`; `fuel` bounds the recursion
    (any `fuel` with `n < 10 ^ fuel` is enough). -/
def natDigitsAux : Nat → Nat → List Char → List Char
  | 0, _, acc => acc
  | fuel + 1, n, acc =>
    if n < 10 then digitChar n :: acc
    else natDigitsAux fuel (n / 10) (digitChar (n % 10) :: acc)

/-- The decimal digit string of `n` (no sign, no leading zeros except for
    `n = 0` itself). -/
def natDigits (n : Nat) : List Char := natDigitsAux (n + 1) n []

/-- CRLF line terminator. -/
def crlf : List Char := ['\r', '\n']

/-- A header line followed by CRLF. -/
def encodeHeader (h : List Char) : List Char := h ++ crlf

/-- The canonical `Content-Length` header line (without terminator). -/
def clHeaderLine (k : Nat) : List Char := "Content-Length: ".toList ++ natDigits k

/-- Concatenate encoded header lines. -/
def joinHeaders (hs : List (List Char)) : List Char :=
  hs.foldr (fun h acc => encodeHeader h ++ acc) []

/-- Status line, headers `pre`, a distinguished header line `hdr`, headers
    `post`, and the blank terminator line — everything of a response up to
    but excluding its body, with the `Content-Length` position explicit. -/
def encodeRespHeadWith (code : Nat) (reason : List Char) (pre post : List (List Char))
    (hdr : List Char) : List Char :=
  "HTTP/1.1 ".toList ++ natDigits code ++ reason ++ crlf
    ++ joinHeaders pre ++ encodeHeader hdr ++ joinHeaders post ++ crlf

/-- Status line, headers `pre`, a `Content-Length: k` header, headers
    `post`, and the blank terminator line — everything of a response up to
    but excluding its body. -/
def encodeRespHead (code : Nat) (reason : List Char) (pre post : List (List Char))
    (k : Nat) : List Char :=
  encodeRespHeadWith code reason pre post (clHeaderLine k)

/-- A complete well-formed response: head with `Content-Length` equal to
    the body's length, then the body. -/
def encodeResp (code : Nat) (reason : List Char) (pre post : List (List Char))
    (body : List Char) : List Char :=
  encodeRespHead code reason pre post body.length ++ body

/-- A response whose header block contains no `Content-Length` header at
    all (and hence no body). -/
def encodeRespNoCL (code : Nat) (reason : List Char) (hs : List (List Char)) : List Char :=
  "HTTP/1.1 ".toList ++ natDigits code ++ reason ++ crlf ++ joinHeaders hs ++ crlf

/-- A legal reason phrase: stays on the status line and does not extend the
    status code's digit string. -/
def GoodReason (r : List Char) : Prop :=
  '\n' ∉ r ∧ ∀ c ∈ r.take 1, ¬('0' ≤ c ∧ c ≤ '9')

/-- A legal header line (sans terminator): nonempty, on one line, and —
    with its `"\r\n"` terminator — short enough that `ReadSlice('\n')` on
    the default 4096-byte `bufio.Reader` finds the newline
    (`h.length + 2 ≤ 4096`). -/
def GoodHeader (h : List Char) : Prop := h ≠ [] ∧ '\n' ∉ h ∧ h.length ≤ 4094

/-- The header line is a `Content-Length` header, up to ASCII case. -/
def IsCL (h : List Char) : Prop :=
  ("content-length:".toList).isPrefixOf (h.map asciiLower)

instance (r : List Char) : Decidable (GoodReason r) := by unfold GoodReason; infer_instance
instance (h : List Char) : Decidable (GoodHeader h) := by unfold GoodHeader; infer_instance
instance (h : List Char) : Decidable (IsCL h) := by unfold IsCL; infer_instance

/-! ### The two-goroutine execution of `Probe` as a small-step machine

`Probe` (src/httppipelining.go lines 80-117) runs a writer goroutine and
the main goroutine.  The state below records both goroutines' program
counters and the channels: the `writes` channel has capacity `n`, so the
writer never blocks on it and its queued outcomes are determined by `wi`;
the unbuffered `flush` channel is the single rendezvous (`flushed` = the
writer has executed `bw.Flush()` and sits at the send, `rv` = the main
goroutine has received).  The trace `tr` records every prober call issued
and the flush, in order. -/

/-- Observable events of a probe run: the prober calls and the sink flush. -/
inductive Event where
  | write (id : Nat)
  | flush
  | read (id : Nat)
deriving DecidableEq, Repr

/-- Joint state of the writer goroutine, the main goroutine and the two
    channels during `Probe`. -/
structure MState where
  wi : Nat
  flushed : Bool
  rv : Bool
  ri : Nat
  s : Stream'
  avail : Bool
  res : Option ((Except PErr Bool) × Stream')
  tr : List Event

/-- One transition of the two-goroutine system.  In every non-final state
    exactly one goroutine can move, so the system is deterministic: the
    writer runs until it has written all requests and flushed; the main
    goroutine is blocked on the `flush` receive until then, and afterwards
    the writer only closes the `writes` channel (not observable).  The
    main loop then drains the fully queued write outcomes in FIFO order. -/
def mstep (p : GoProber) (flushErr : Option PErr) (st : MState) : Option MState :=
  if st.res.isSome then none
  else if st.wi < p.numRequests then
    some { st with wi := st.wi + 1, tr := st.tr ++ [Event.write st.wi] }
  else if ¬st.flushed then
    some { st with flushed := true, tr := st.tr ++ [Event.flush] }
  else if ¬st.rv then
    match flushErr with
    | some e => some { st with rv := true, res := some (.error e, st.s) }
    | none => some { st with rv := true }
  else if st.ri < p.numRequests then
    match p.writeErr st.ri with
    | some e => some { st with res := some (.error e, st.s) }
    | none =>
      match p.readReq st.ri st.s with
      | (.error e, s') =>
        some { st with s := s', res := some (.error e, s'), tr := st.tr ++ [Event.read st.ri] }
      | (.ok b, s') =>
        some { st with ri := st.ri + 1, s := s', avail := st.avail && b, tr := st.tr ++ [Event.read st.ri] }
  else some { st with res := some (.ok st.avail, st.s) }

/-- Run the machine for `fuel` steps (it stalls once final). -/
def mrun (p : GoProber) (flushErr : Option PErr) : Nat → MState → MState
  | 0, st => st
  | fuel + 1, st =>
    match mstep p flushErr st with
    | none => st
    | some st' => mrun p flushErr fuel st'

/-- Initial state of a probe over stream `s`. -/
def minit (s : Stream') : MState :=
  ⟨0, false, false, 0, s, true, none, []⟩

/-- The final state of the machine; `2 * n + 3` steps always suffice. -/
def mfinal (p : GoProber) (flushErr : Option PErr) (s : Stream') : MState :=
  mrun p flushErr (2 * p.numRequests + 3) (minit s)

/-- The ids on which `ReadRequest` is actually called: ids in order until
    the first failed write outcome (no read for it) or failed read (which
    is still a call). -/
def readIds (p : GoProber) : Nat → Nat → Stream' → List Nat
  | 0, _, _ => []
  | k + 1, i, s =>
    match p.writeErr i with
    | some _ => []
    | none =>
      i :: match p.readReq i s with
        | (.error _, _) => []
        | (.ok _, s') => readIds p k (i + 1) s'

/-! ### The `textproto.Pipeline` implementation (src/unnamed/part_000) -/

/-- Per-goroutine results of the `textproto.Pipeline` version of `Probe`
    (src/unnamed/part_000 lines 81-122).  `pl.Next()` hands out ids
    `0..n-1`; `StartRequest`/`EndRequest` serialise the write sections in
    id order and `StartResponse`/`EndResponse` serialise the read sections
    in id order, so in every execution in which all writes succeed,
    goroutine `id` consumes exactly the `id`-th response of the stream; its
    result is that read's outcome.  (A goroutine whose `WriteRequest` fails
    returns without entering its response section, deadlocking all later
    readers, so only write-failure-free executions are modelled — exactly
    the hypothesis of the equivalence claim.) -/
def pipelineResults (p : GoProber) (s : Stream') : List (Except PErr Bool) :=
  (readSeq p p.numRequests 0 s).1

/-- The collector loop of the `textproto.Pipeline` version (part_000 lines
    112-119): results arrive over the buffered `results` channel in a
    scheduler-dependent order; the first error received aborts, and the
    verdict is the accumulated conjunction. -/
def collectResults : List (Except PErr Bool) → Bool → Except PErr Bool
  | [], avail => .ok avail
  | r :: rs, avail =>
    match r with
    | .error e => .error e
    | .ok b => collectResults rs (avail && b)

/-! ### Digit and scanner lemmas -/

/-- The value accumulated by `scanDigits` over a digit string. -/
def digitsVal (a : Nat) (l : List Char) : Nat :=
  l.foldl (fun x c => x * 10 + (c.toNat - 48)) a

/-- The first character, if any, is not a decimal digit (where a number
    scan stops). -/
def headNotDigit (l : List Char) : Prop :=
  ∀ c ∈ l.take 1, ¬('0' ≤ c ∧ c ≤ '9')

instance (l : List Char) : Decidable (headNotDigit l) := by
  unfold headNotDigit; infer_instance

lemma digitChar_toNat {d : Nat} (hd : d < 10) : (digitChar d).toNat - 48 = d := by
  interval_cases d <;> decide

lemma digitChar_isDigit {d : Nat} (hd : d < 10) : '0' ≤ digitChar d ∧ digitChar d ≤ '9' := by
  interval_cases d <;> decide

lemma digitChar_ne_newline {d : Nat} (hd : d < 10) : digitChar d ≠ '\n' := by
  interval_cases d <;> decide

lemma digitChar_ne_sign {d : Nat} (hd : d < 10) : digitChar d ≠ '-' ∧ digitChar d ≠ '+' := by
  interval_cases d <;> decide

lemma digitChar_not_space {d : Nat} (hd : d < 10) :
    (digitChar d == ' ' || digitChar d == '\t') = false := by
  interval_cases d <;> decide

lemma digitChar_asciiLower {d : Nat} (hd : d < 10) : asciiLower (digitChar d) = digitChar d := by
  interval_cases d <;> decide

/-- `scanDigits` consumes exactly a digit string when the next character is
    not a digit. -/
lemma scanDigits_append : ∀ (l rest : List Char) (a : Nat),
    (∀ c ∈ l, ∃ d, d < 10 ∧ c = digitChar d) → headNotDigit rest →
    scanDigits a (l ++ rest) = (digitsVal a l, rest)
  | [], rest, a, _, hr => by
    cases rest with
    | nil => rfl
    | cons c cs =>
      have := hr c (by simp)
      simp only [List.nil_append, scanDigits, digitsVal, List.foldl_nil]
      rw [if_neg this]
  | c :: t, rest, a, hl, hr => by
    obtain ⟨d, hd, hc⟩ := hl c (by simp)
    subst hc
    have key := scanDigits_append t rest (a * 10 + d) (fun c hc => hl c (by simp [hc])) hr
    simp only [List.cons_append, scanDigits, if_pos (digitChar_isDigit hd),
      digitChar_toNat hd, digitsVal, List.foldl_cons]
    exact key

lemma natDigitsAux_succ (fuel n : Nat) (acc : List Char) :
    natDigitsAux (fuel + 1) n acc =
      if n < 10 then digitChar n :: acc
      else natDigitsAux fuel (n / 10) (digitChar (n % 10) :: acc) := rfl

lemma natDigitsAux_spec :
    ∀ fuel n acc, n < 10 ^ (fuel + 1) →
      ∃ l, natDigitsAux (fuel + 1) n acc = l ++ acc ∧ l ≠ [] ∧
        (∀ c ∈ l, ∃ d, d < 10 ∧ c = digitChar d) ∧
        ∀ a, digitsVal a l = a * 10 ^ l.length + n := by
  intro fuel
  induction fuel with
  | zero =>
    intro n acc hn
    norm_num at hn
    refine ⟨[digitChar n], ?_, List.cons_ne_nil _ _, ?_, ?_⟩
    · rw [natDigitsAux_succ, if_pos hn]; rfl
    · intro c hc; simp at hc; exact ⟨n, hn, hc⟩
    · intro a
      simp [digitsVal, digitChar_toNat hn]
  | succ fuel ih =>
    intro n acc hn
    by_cases h10 : n < 10
    · refine ⟨[digitChar n], ?_, List.cons_ne_nil _ _, ?_, ?_⟩
      · rw [natDigitsAux_succ, if_pos h10]; rfl
      · intro c hc; simp at hc; exact ⟨n, h10, hc⟩
      · intro a
        simp [digitsVal, digitChar_toNat h10]
    · have hdiv : n / 10 < 10 ^ (fuel + 1) := by
        rw [Nat.div_lt_iff_lt_mul (by norm_num : 0 < 10)]
        calc n < 10 ^ (fuel + 1 + 1) := hn
          _ = 10 ^ (fuel + 1) * 10 := by ring
      obtain ⟨l', heq, hne, hmem, hval⟩ := ih (n / 10) (digitChar (n % 10) :: acc) hdiv
      refine ⟨l' ++ [digitChar (n % 10)], ?_, by simp [hne], ?_, ?_⟩
      · rw [natDigitsAux_succ, if_neg h10, heq, List.append_assoc, List.singleton_append]
      · intro c hc
        rcases List.mem_append.mp hc with h | h
        · exact hmem c h
        · simp at h
          exact ⟨n % 10, Nat.mod_lt _ (by norm_num), h⟩
      · intro a
        have hmod : n % 10 < 10 := Nat.mod_lt _ (by norm_num)
        simp only [digitsVal, List.foldl_append, List.foldl_cons, List.foldl_nil]
        have hv := hval a
        simp only [digitsVal] at hv
        rw [hv, digitChar_toNat hmod, List.length_append, List.length_singleton]
        have hnm : 10 * (n / 10) + n % 10 = n := Nat.div_add_mod n 10
        calc (a * 10 ^ l'.length + n / 10) * 10 + n % 10
            = a * (10 ^ l'.length * 10) + (10 * (n / 10) + n % 10) := by ring
          _ = a * 10 ^ (l'.length + 1) + n := by rw [hnm, pow_succ]

/-- Specification of `natDigits`: a nonempty digit string whose value is `n`. -/
lemma natDigits_spec (n : Nat) :
    natDigits n ≠ [] ∧ (∀ c ∈ natDigits n, ∃ d, d < 10 ∧ c = digitChar d) ∧
      ∀ a, digitsVal a (natDigits n) = a * 10 ^ (natDigits n).length + n := by
  have hn : n < 10 ^ (n + 1) :=
    lt_of_lt_of_le (Nat.lt_pow_self (by norm_num) n)
      (Nat.pow_le_pow_right (by norm_num) (Nat.le_succ n))
  obtain ⟨l, heq, hne, hmem, hval⟩ := natDigitsAux_spec n n [] hn
  rw [List.append_nil] at heq
  rw [natDigits, heq]
  exact ⟨hne, hmem, hval⟩

/-- Fuel-independent bound on the number of rendered digits: if
    `n < 10 ^ (d + 1)` and the fuel is at least `d + 1`, at most `d + 1`
    digit characters are prepended to `acc`. -/
lemma natDigitsAux_length_le : ∀ (fuel d n : Nat) (acc : List Char), n < 10 ^ (d + 1) →
    d + 1 ≤ fuel → (natDigitsAux fuel n acc).length ≤ (d + 1) + acc.length := by
  intro fuel
  induction fuel with
  | zero => intro d n acc _ hf; omega
  | succ fuel ih =>
    intro d n acc hn hf
    rw [natDigitsAux_succ]
    by_cases h10 : n < 10
    · rw [if_pos h10]
      simp only [List.length_cons]
      omega
    · rw [if_neg h10]
      have hd : 1 ≤ d := by
        by_contra hd0
        have hd1 : d = 0 := by omega
        rw [hd1] at hn
        norm_num at hn
        exact h10 hn
      have hdiv : n / 10 < 10 ^ ((d - 1) + 1) := by
        rw [Nat.div_lt_iff_lt_mul (by norm_num : 0 < 10)]
        calc n < 10 ^ (d + 1) := hn
          _ = 10 ^ ((d - 1) + 1) * 10 := by
            rw [← pow_succ]
            congr 1
            omega
      have hrec := ih (d - 1) (n / 10) (digitChar (n % 10) :: acc) hdiv (by omega)
      simp only [List.length_cons] at hrec
      omega

/-- Every number below `2 ^ 63` (Go's int range) has at most 19 decimal
    digits. -/
lemma natDigits_length_le {n : Nat} (hn : n < 2 ^ 63) : (natDigits n).length ≤ 19 := by
  rw [natDigits]
  rcases lt_or_le n 19 with h | h
  · have h1 : n < 10 ^ (n + 1) :=
      lt_of_lt_of_le (Nat.lt_pow_self (by norm_num) n)
        (Nat.pow_le_pow_right (by norm_num) (Nat.le_succ n))
    have hb := natDigitsAux_length_le (n + 1) n n [] h1 (le_refl _)
    simp only [List.length_nil] at hb
    omega
  · have h19 : n < 10 ^ (18 + 1) := lt_trans hn (by norm_num)
    have hb := natDigitsAux_length_le (n + 1) 18 n [] h19 (by omega)
    simp only [List.length_nil] at hb
    omega

/-- The canonical `Content-Length` header line of an in-range length is
    short (at most 35 characters, far below the 4096-byte line limit). -/
lemma clHeaderLine_length_le {k : Nat} (hk : k < 2 ^ 63) :
    (clHeaderLine k).length ≤ 35 := by
  rw [clHeaderLine, List.length_append,
    (by rfl : ("Content-Length: ".toList).length = 16)]
  have := natDigits_length_le hk
  omega

/-- `scanInt` consumes exactly an (unsigned) encoded number when the next
    character is not a digit. -/
lemma scanInt_natDigits {n : Nat} {rest : List Char} (hr : headNotDigit rest) :
    scanInt (natDigits n ++ rest) = some ((n : Int), rest) := by
  obtain ⟨hne, hmem, hval⟩ := natDigits_spec n
  cases hnd : natDigits n with
  | nil => exact absurd hnd hne
  | cons c t =>
    obtain ⟨d, hd, rfl⟩ := hmem c (by rw [hnd]; simp)
    simp only [List.cons_append, scanInt]
    rw [if_neg (digitChar_ne_sign hd).1, if_neg (digitChar_ne_sign hd).2,
      if_pos (digitChar_isDigit hd)]
    have hscan : scanDigits 0 ((digitChar d :: t) ++ rest) = (digitsVal 0 (digitChar d :: t), rest) := by
      refine scanDigits_append _ rest 0 ?_ hr
      intro c hc
      exact hmem c (by rw [hnd]; exact hc)
    simp only [List.cons_append] at hscan
    rw [hscan]
    have := hval 0
    rw [hnd] at this
    simp at this
    simp [this]

/-- `dropSpaces` does not move past a digit. -/
lemma dropSpaces_natDigits (n : Nat) (rest : List Char) :
    dropSpaces (natDigits n ++ rest) = natDigits n ++ rest := by
  obtain ⟨hne, hmem, _⟩ := natDigits_spec n
  cases hnd : natDigits n with
  | nil => exact absurd hnd hne
  | cons c t =>
    obtain ⟨d, hd, rfl⟩ := hmem c (by rw [hnd]; simp)
    simp [dropSpaces, digitChar_not_space hd]

lemma dropSpaces_space (l : List Char) : dropSpaces (' ' :: l) = dropSpaces l := by
  simp [dropSpaces]

/-- Splitting at the first newline of `l ++ '\n' :: r` when `l` itself has
    no newline. -/
lemma splitAtNewline_append {l : List Char} (r : List Char) (hl : '\n' ∉ l) :
    splitAtNewline (l ++ '\n' :: r) = some (l ++ ['\n'], r) := by
  induction l with
  | nil => simp [splitAtNewline]
  | cons c t ih =>
    have hc : c ≠ '\n' := fun h => hl (by simp [h])
    have ht : '\n' ∉ t := fun h => hl (by simp [h])
    simp only [List.cons_append, splitAtNewline, List.append_eq]
    rw [if_neg hc, ih ht]

/-- A stream with no newline at all makes `ReadString`/`ReadSlice` fail
    with `io.EOF`. -/
lemma splitAtNewline_eq_none {s : List Char} (hs : '\n' ∉ s) :
    splitAtNewline s = none := by
  induction s with
  | nil => rfl
  | cons c t ih =>
    have hc : c ≠ '\n' := fun h => hs (by simp [h])
    have ht : '\n' ∉ t := fun h => hs (by simp [h])
    simp only [splitAtNewline]
    rw [if_neg hc, ih ht]

lemma stripPfx_append (p r : List Char) : stripPfx p (p ++ r) = some r := by
  induction p with
  | nil => rfl
  | cons c t ih => simp [stripPfx, ih]

lemma natDigits_no_newline (n : Nat) : '\n' ∉ natDigits n := by
  intro hmem
  obtain ⟨d, hd, hc⟩ := (natDigits_spec n).2.1 _ hmem
  exact digitChar_ne_newline hd hc.symm

lemma isPrefixOf_append_self (p r : List Char) : p.isPrefixOf (p ++ r) = true := by
  induction p with
  | nil => simp
  | cons c t ih => simp [List.isPrefixOf, ih]

/-- A needle with no `'\r'` is a prefix of `l ++ crlf` iff it is a prefix
    of `l`. -/
lemma isPrefixOf_append_crlf : ∀ (p l : List Char), '\r' ∉ p →
    p.isPrefixOf (l ++ crlf) = p.isPrefixOf l
  | [], l, _ => by simp
  | c :: p, [], hp => by
    have hc : c ≠ '\r' := fun h => hp (by simp [h])
    simp [crlf, List.isPrefixOf, hc]
  | c :: p, b :: l, hp => by
    have hp' : '\r' ∉ p := fun h => hp (by simp [h])
    simp only [List.cons_append, List.isPrefixOf, List.append_eq]
    rw [isPrefixOf_append_crlf p l hp']

/-! ### Header-loop lemmas -/

/-- Stepping `headerLoop` over characters that are not newlines just
    accumulates them into the current line, provided the pending line
    stays below the 4096-byte buffer (so the next character — typically
    the line's `'\n'` — is still within it). -/
lemma headerLoop_chars : ∀ (l cs cur : List Char) (cl : Int) (found : Bool),
    '\n' ∉ l → cur.length + l.length ≤ 4095 →
    headerLoop (l ++ cs) cur cl found = headerLoop cs (l.reverse ++ cur) cl found
  | [], cs, cur, cl, found, _, _ => by simp
  | c :: l, cs, cur, cl, found, hl, hlen => by
    have hc : c ≠ '\n' := fun h => hl (by simp [h])
    have hl' : '\n' ∉ l := fun h => hl (by simp [h])
    have hlen0 : cur.length + 1 < 4096 := by
      simp only [List.length_cons] at hlen
      omega
    have hlen' : (c :: cur).length + l.length ≤ 4095 := by
      simp only [List.length_cons] at hlen ⊢
      omega
    simp only [List.cons_append, headerLoop, List.append_eq]
    rw [if_neg hc, if_pos hlen0, headerLoop_chars l cs (c :: cur) cl found hl' hlen']
    simp

/-- Processing one complete header line that fits the 4096-byte buffer. -/
lemma headerLoop_line {l : List Char} (cs : List Char) (cl : Int) (found : Bool)
    (hl : '\n' ∉ l) (hlen : l.length ≤ 4095) :
    headerLoop ((l ++ ['\n']) ++ cs) [] cl found =
      match lineStep (l ++ ['\n']) cl found with
      | .error e => (.error e, cs)
      | .ok none => (.ok cl, cs)
      | .ok (some st) => headerLoop cs [] st.1 st.2 := by
  rw [List.append_assoc, List.singleton_append,
    headerLoop_chars l ('\n' :: cs) [] cl found hl (by simpa using hlen)]
  simp [headerLoop]

/-- The blank `"\r\n"` line terminates the header block. -/
lemma headerLoop_terminator (cs : List Char) (cl : Int) (found : Bool) :
    headerLoop (crlf ++ cs) [] cl found = (.ok cl, cs) := by
  have h : crlf ++ cs = (['\r'] ++ ['\n']) ++ cs := rfl
  rw [h, headerLoop_line cs cl found (by decide) (by decide)]
  rfl

/-- If the stream runs out before the next newline and before the
    4096-byte buffer fills, the header loop fails with `io.EOF`, the
    whole stream consumed. -/
lemma headerLoop_eof : ∀ (l cur : List Char) (cl : Int) (found : Bool),
    '\n' ∉ l → cur.length + l.length ≤ 4095 →
    headerLoop l cur cl found = (.error .eof, [])
  | [], _, _, _, _, _ => rfl
  | c :: l, cur, cl, found, hl, hlen => by
    have hc : c ≠ '\n' := fun h => hl (by simp [h])
    have hl' : '\n' ∉ l := fun h => hl (by simp [h])
    have hlen0 : cur.length + 1 < 4096 := by
      simp only [List.length_cons] at hlen
      omega
    have hlen' : (c :: cur).length + l.length ≤ 4095 := by
      simp only [List.length_cons] at hlen ⊢
      omega
    simp only [headerLoop]
    rw [if_neg hc, if_pos hlen0, headerLoop_eof l (c :: cur) cl found hl' hlen']

/-- If the first 4096 bytes of the pending header line contain no newline,
    `ReadSlice` fails with `bufio.ErrBufferFull` — a non-EOF error —
    consuming exactly those 4096 bytes. -/
lemma headerLoop_bufferFull : ∀ (l cur : List Char) (cl : Int) (found : Bool),
    '\n' ∉ l.take (4096 - cur.length) → cur.length < 4096 →
    4096 ≤ cur.length + l.length →
    headerLoop l cur cl found
      = (.error (.other "bufio: buffer full"), l.drop (4096 - cur.length))
  | [], cur, cl, found, _, hcur, htot => by
    simp only [List.length_nil] at htot
    omega
  | c :: l, cur, cl, found, hl, hcur, htot => by
    have hc : c ≠ '\n' := by
      intro h
      apply hl
      rw [List.take_cons (by omega : 0 < 4096 - cur.length)]
      simp [h]
    simp only [headerLoop]
    rw [if_neg hc]
    by_cases hfull : cur.length + 1 < 4096
    · rw [if_pos hfull]
      have hl' : '\n' ∉ l.take (4096 - (c :: cur).length) := by
        intro h
        apply hl
        rw [List.take_cons (by omega : 0 < 4096 - cur.length)]
        simp only [List.mem_cons]
        right
        simp only [List.length_cons] at h
        have heq : 4096 - (cur.length + 1) = 4096 - cur.length - 1 := by omega
        rw [heq] at h
        exact h
      have hrec := headerLoop_bufferFull l (c :: cur) cl found hl'
        (by simp only [List.length_cons]; omega)
        (by simp only [List.length_cons] at htot ⊢; omega)
      rw [hrec]
      have hdrop : l.drop (4096 - (c :: cur).length) = (c :: l).drop (4096 - cur.length) := by
        have hm : 4096 - cur.length = 4096 - (cur.length + 1) + 1 := by omega
        rw [hm, List.drop_succ_cons, List.length_cons]
      rw [hdrop]
    · rw [if_neg hfull]
      have hone : 4096 - cur.length = 1 := by omega
      rw [hone]
      simp

/-- `lineStep` on a header line that is skipped: any line once the length
    was already found, and any non-`Content-Length` line before that. -/
lemma lineStep_skip {h : List Char} (cl : Int) (found : Bool)
    (hgood : GoodHeader h) (hskip : found = true ∨ ¬IsCL h) :
    lineStep (h ++ crlf) cl found = .ok (some (cl, found)) := by
  obtain ⟨hne, _⟩ := hgood
  have hterm : ¬(h ++ crlf = ['\r', '\n']) := by
    intro hx
    apply hne
    have hlen := congrArg List.length hx
    simp [crlf] at hlen
    exact hlen
  rw [lineStep, if_neg hterm]
  by_cases hcond : (found = true) ∨
      ((h ++ crlf).head? ≠ some 'C' ∧ (h ++ crlf).head? ≠ some 'c')
  · rw [if_pos hcond]
  · rw [if_neg hcond]
    have hncl : ¬IsCL h := by
      rcases hskip with hf | hncl
      · exact absurd (Or.inl hf) hcond
      · exact hncl
    have hmap : (h ++ crlf).map asciiLower = h.map asciiLower ++ crlf := by
      rw [List.map_append]; rfl
    have hpre : ("content-length:".toList).isPrefixOf ((h ++ crlf).map asciiLower) = false := by
      rw [hmap, isPrefixOf_append_crlf _ _ (by decide)]
      exact Bool.eq_false_iff.mpr (fun hx => hncl hx)
    simp only [hpre]
    rfl

/-- A map over a char list is the identity when it fixes every element. -/
lemma map_id_of_mem {l : List Char} {f : Char → Char} (hf : ∀ c ∈ l, f c = c) :
    l.map f = l := by
  induction l with
  | nil => rfl
  | cons c t ih =>
    rw [List.map_cons, hf c (by simp), ih (fun c hc => hf c (by simp [hc]))]

lemma map_asciiLower_natDigits (k : Nat) : (natDigits k).map asciiLower = natDigits k := by
  refine map_id_of_mem ?_
  intro c hc
  obtain ⟨d, hd, rfl⟩ := (natDigits_spec k).2.1 c hc
  exact digitChar_asciiLower hd

/-- `scanCLValue` on the canonical (lowercased) value of a
    `Content-Length: k` header. -/
lemma scanCLValue_digits (k : Nat) :
    scanCLValue (' ' :: (natDigits k ++ crlf)) = some (k : Int) := by
  rw [scanCLValue, dropSpaces_space, dropSpaces_natDigits,
    scanInt_natDigits (by decide : headNotDigit crlf)]
  rfl

/-- `lineStep` on the canonical `Content-Length: k` header line records the
    length and sets the found flag. -/
lemma lineStep_cl (k : Nat) (cl : Int) :
    lineStep (clHeaderLine k ++ crlf) cl false = .ok (some ((k : Int), true)) := by
  have h16 : ("Content-Length: ".toList).length = 16 := rfl
  have hterm : ¬(clHeaderLine k ++ crlf = ['\r', '\n']) := by
    intro hx
    have hlen := congrArg List.length hx
    simp [crlf, clHeaderLine, h16] at hlen
  have hcons : clHeaderLine k ++ crlf
      = 'C' :: ("ontent-Length: ".toList ++ (natDigits k ++ crlf)) := by
    rw [clHeaderLine, (by rfl : "Content-Length: ".toList = 'C' :: "ontent-Length: ".toList)]
    simp
  have hhead : (clHeaderLine k ++ crlf).head? = some 'C' := by rw [hcons]; rfl
  have hcond : ¬((false = true) ∨
      ((clHeaderLine k ++ crlf).head? ≠ some 'C' ∧ (clHeaderLine k ++ crlf).head? ≠ some 'c')) := by
    rw [hhead]; simp
  have hmaplit : ("Content-Length: ".toList).map asciiLower = "content-length: ".toList := by
    decide
  have hmap : (clHeaderLine k ++ crlf).map asciiLower
      = "content-length:".toList ++ (' ' :: (natDigits k ++ crlf)) := by
    rw [clHeaderLine, List.map_append, List.map_append, hmaplit, map_asciiLower_natDigits,
      (by decide : List.map asciiLower crlf = crlf),
      (by rfl : "content-length: ".toList = "content-length:".toList ++ [' '])]
    simp
  have hpre : ("content-length:".toList).isPrefixOf ((clHeaderLine k ++ crlf).map asciiLower)
      = true := by
    rw [hmap]; exact isPrefixOf_append_self _ _
  have hdrop : ((clHeaderLine k ++ crlf).map asciiLower).drop 15
      = ' ' :: (natDigits k ++ crlf) := by
    rw [hmap, (by rfl : (15 : Nat) = ("content-length:".toList).length), List.drop_left]
  rw [lineStep, if_neg hterm, if_neg hcond]
  simp only [hpre, hdrop, scanCLValue_digits]
  simp

/-- Skipping one encoded header line in the loop. -/
lemma headerLoop_skip {h : List Char} (cs : List Char) (cl : Int) (found : Bool)
    (hgood : GoodHeader h) (hskip : found = true ∨ ¬IsCL h) :
    headerLoop (encodeHeader h ++ cs) [] cl found = headerLoop cs [] cl found := by
  have hsplit : encodeHeader h ++ cs = ((h ++ ['\r']) ++ ['\n']) ++ cs := by
    simp [encodeHeader, crlf]
  have hnl : '\n' ∉ h ++ ['\r'] := by
    intro hm
    rcases List.mem_append.mp hm with hm | hm
    · exact hgood.2.1 hm
    · simp at hm
  have hlen : (h ++ ['\r']).length ≤ 4095 := by
    have := hgood.2.2
    simp only [List.length_append, List.length_singleton]
    omega
  rw [hsplit, headerLoop_line cs cl found hnl hlen,
    (by simp [crlf] : (h ++ ['\r']) ++ ['\n'] = h ++ crlf), lineStep_skip cl found hgood hskip]

/-- Recording the canonical `Content-Length` header line in the loop. -/
lemma headerLoop_cl (k : Nat) (cs : List Char) (cl : Int) (hk : k < 2 ^ 63) :
    headerLoop (encodeHeader (clHeaderLine k) ++ cs) [] cl false
      = headerLoop cs [] (k : Int) true := by
  have hsplit : encodeHeader (clHeaderLine k) ++ cs
      = ((clHeaderLine k ++ ['\r']) ++ ['\n']) ++ cs := by
    simp [encodeHeader, crlf]
  have hnl : '\n' ∉ clHeaderLine k ++ ['\r'] := by
    intro hm
    rcases List.mem_append.mp hm with hm | hm
    · rcases List.mem_append.mp hm with hm | hm
      · revert hm; decide
      · exact natDigits_no_newline k hm
    · simp at hm
  have hlen : (clHeaderLine k ++ ['\r']).length ≤ 4095 := by
    have := clHeaderLine_length_le hk
    simp only [List.length_append, List.length_singleton]
    omega
  rw [hsplit, headerLoop_line cs cl false hnl hlen,
    (by simp [crlf] : (clHeaderLine k ++ ['\r']) ++ ['\n'] = clHeaderLine k ++ crlf),
    lineStep_cl k cl]

/-- The lowercase form of the canonical `Content-Length` header line. -/
lemma clLower (k : Nat) :
    (clHeaderLine k).map asciiLower = "content-length: ".toList ++ natDigits k := by
  rw [clHeaderLine, List.map_append,
    (by decide : ("Content-Length: ".toList).map asciiLower = "content-length: ".toList),
    map_asciiLower_natDigits]

/-- `lineStep` on any header line that lowercases to the canonical
    `Content-Length: k` line and starts with `C` or `c`. -/
lemma lineStep_cl_any (k : Nat) (cl : Int) (hdr : List Char) (hne : hdr ≠ [])
    (hlow : hdr.map asciiLower = (clHeaderLine k).map asciiLower)
    (hhead : hdr.head? = some 'C' ∨ hdr.head? = some 'c') :
    lineStep (hdr ++ crlf) cl false = .ok (some ((k : Int), true)) := by
  obtain ⟨a, t, rfl⟩ : ∃ a t, hdr = a :: t := by
    cases hdr with
    | nil => exact absurd rfl hne
    | cons a t => exact ⟨a, t, rfl⟩
  have ha : a = 'C' ∨ a = 'c' := by
    rcases hhead with h | h
    · left; simpa using h
    · right; simpa using h
  have hterm : ¬((a :: t) ++ crlf = ['\r', '\n']) := by
    intro hx
    have hhd : a = '\r' := by
      have := congrArg List.head? hx
      simpa using this
    rcases ha with rfl | rfl <;> simp at hhd
  have hcond : ¬((false = true) ∨
      (((a :: t) ++ crlf).head? ≠ some 'C' ∧ ((a :: t) ++ crlf).head? ≠ some 'c')) := by
    simp only [List.cons_append, List.head?_cons]
    rcases ha with rfl | rfl <;> simp
  have hmap : ((a :: t) ++ crlf).map asciiLower
      = "content-length:".toList ++ (' ' :: (natDigits k ++ crlf)) := by
    rw [List.map_append, hlow, clLower,
      (by decide : crlf.map asciiLower = crlf),
      (by rfl : "content-length: ".toList = "content-length:".toList ++ [' '])]
    simp
  have hpre : ("content-length:".toList).isPrefixOf (((a :: t) ++ crlf).map asciiLower)
      = true := by
    rw [hmap]; exact isPrefixOf_append_self _ _
  have hdrop : (((a :: t) ++ crlf).map asciiLower).drop 15
      = ' ' :: (natDigits k ++ crlf) := by
    rw [hmap, (by rfl : (15 : Nat) = ("content-length:".toList).length), List.drop_left]
  rw [lineStep, if_neg hterm, if_neg hcond]
  simp only [hpre, hdrop, scanCLValue_digits]
  simp

/-- `headerLoop` on any case variant of the `Content-Length` header. -/
lemma headerLoop_cl_any (k : Nat) (hdr : List Char) (cs : List Char) (cl : Int)
    (hne : hdr ≠ []) (hnl : '\n' ∉ hdr) (hhlen : hdr.length ≤ 4094)
    (hlow : hdr.map asciiLower = (clHeaderLine k).map asciiLower)
    (hhead : hdr.head? = some 'C' ∨ hdr.head? = some 'c') :
    headerLoop (encodeHeader hdr ++ cs) [] cl false = headerLoop cs [] (k : Int) true := by
  have hsplit : encodeHeader hdr ++ cs = ((hdr ++ ['\r']) ++ ['\n']) ++ cs := by
    simp [encodeHeader, crlf]
  have hnl' : '\n' ∉ hdr ++ ['\r'] := by
    intro hm
    rcases List.mem_append.mp hm with hm | hm
    · exact hnl hm
    · simp at hm
  have hlen : (hdr ++ ['\r']).length ≤ 4095 := by
    simp only [List.length_append, List.length_singleton]
    omega
  rw [hsplit, headerLoop_line cs cl false hnl' hlen,
    (by simp [crlf] : (hdr ++ ['\r']) ++ ['\n'] = hdr ++ crlf),
    lineStep_cl_any k cl hdr hne hlow hhead]

/-- `lineStep` on a `Content-Length` header whose value does not scan:
    the parse aborts. -/
lemma lineStep_badCL (v : List Char) (cl : Int)
    (hscan : scanCLValue ((v.map asciiLower) ++ crlf) = none) :
    lineStep (("Content-Length:".toList ++ v) ++ crlf) cl false
      = .error (.other "bad content-length") := by
  have hcons : ("Content-Length:".toList ++ v) ++ crlf
      = 'C' :: ("ontent-Length:".toList ++ v ++ crlf) := by
    rw [(by rfl : "Content-Length:".toList = 'C' :: "ontent-Length:".toList)]
    simp
  have hhead : (("Content-Length:".toList ++ v) ++ crlf).head? = some 'C' := by
    rw [hcons]; rfl
  have hterm : ¬((("Content-Length:".toList ++ v) ++ crlf) = ['\r', '\n']) := by
    intro hx
    have := congrArg List.head? hx
    rw [hhead] at this
    simp at this
  have hcond : ¬((false = true) ∨
      ((("Content-Length:".toList ++ v) ++ crlf).head? ≠ some 'C'
        ∧ (("Content-Length:".toList ++ v) ++ crlf).head? ≠ some 'c')) := by
    rw [hhead]; simp
  have hmap : (("Content-Length:".toList ++ v) ++ crlf).map asciiLower
      = "content-length:".toList ++ (v.map asciiLower ++ crlf) := by
    rw [List.map_append, List.map_append,
      (by decide : ("Content-Length:".toList).map asciiLower = "content-length:".toList),
      (by decide : crlf.map asciiLower = crlf), List.append_assoc]
  have hpre : ("content-length:".toList).isPrefixOf
      ((("Content-Length:".toList ++ v) ++ crlf).map asciiLower) = true := by
    rw [hmap]; exact isPrefixOf_append_self _ _
  have hdrop : ((("Content-Length:".toList ++ v) ++ crlf).map asciiLower).drop 15
      = v.map asciiLower ++ crlf := by
    rw [hmap, (by rfl : (15 : Nat) = ("content-length:".toList).length), List.drop_left]
  rw [lineStep, if_neg hterm, if_neg hcond]
  simp only [hpre, hdrop, hscan]
  simp

/-- `headerLoop` aborts on a malformed `Content-Length` value. -/
lemma headerLoop_badCL (v : List Char) (cs : Stream') (cl : Int) (hv : '\n' ∉ v)
    (hvlen : v.length ≤ 4079)
    (hscan : scanCLValue ((v.map asciiLower) ++ crlf) = none) :
    headerLoop (encodeHeader ("Content-Length:".toList ++ v) ++ cs) [] cl false
      = (.error (.other "bad content-length"), cs) := by
  have hsplit : encodeHeader ("Content-Length:".toList ++ v) ++ cs
      = ((("Content-Length:".toList ++ v) ++ ['\r']) ++ ['\n']) ++ cs := by
    simp [encodeHeader, crlf]
  have hnl' : '\n' ∉ ("Content-Length:".toList ++ v) ++ ['\r'] := by
    intro hm
    rcases List.mem_append.mp hm with hm | hm
    · rcases List.mem_append.mp hm with hm | hm
      · revert hm; decide
      · exact hv hm
    · simp at hm
  have hlen : (("Content-Length:".toList ++ v) ++ ['\r']).length ≤ 4095 := by
    have h15 : ("Content-Length:".toList).length = 15 := rfl
    simp only [List.length_append, List.length_singleton]
    omega
  rw [hsplit, headerLoop_line cs cl false hnl' hlen,
    (by simp [crlf] : (("Content-Length:".toList ++ v) ++ ['\r']) ++ ['\n']
        = ("Content-Length:".toList ++ v) ++ crlf),
    lineStep_badCL v cl hscan]

/-- Recasing commutes with lowercasing on case-safe characters. -/
lemma recase_map_lower : ∀ (mask : List Bool) (l : List Char), (∀ c ∈ l, caseSafe c) →
    (recase mask l).map asciiLower = l.map asciiLower
  | mask, [], _ => by cases mask <;> rfl
  | [], c :: cs, _ => rfl
  | u :: us, c :: cs, h => by
    have hc := h c (by simp)
    simp only [recase, List.map_cons,
      recase_map_lower us cs (fun c hc => h c (by simp [hc]))]
    cases u
    · simp [hc.2.1]
    · simp [hc.1]

lemma recase_ne_nil {l : List Char} (mask : List Bool) (hl : l ≠ []) :
    recase mask l ≠ [] := by
  cases l with
  | nil => exact absurd rfl hl
  | cons c cs => cases mask <;> simp [recase]

lemma recase_no_newline : ∀ (mask : List Bool) (l : List Char), (∀ c ∈ l, caseSafe c) →
    '\n' ∉ l → '\n' ∉ recase mask l
  | mask, [], _, _ => by cases mask <;> simp [recase]
  | [], c :: cs, _, hnl => hnl
  | u :: us, c :: cs, h, hnl => by
    have hc := h c (by simp)
    intro hm
    simp only [recase, List.mem_cons] at hm
    rcases hm with hm | hm
    · cases u
      · exact hc.2.2.2 hm.symm
      · exact hc.2.2.1 hm.symm
    · exact recase_no_newline us cs (fun c hc => h c (by simp [hc]))
        (fun hx => hnl (by simp [hx])) hm

/-- Recasing never changes the length. -/
lemma recase_length : ∀ (mask : List Bool) (l : List Char),
    (recase mask l).length = l.length
  | mask, [] => by cases mask <;> rfl
  | [], _ :: _ => rfl
  | u :: us, c :: cs => by
    cases u <;> simp [recase, recase_length us cs]

/-- Every character of the canonical `Content-Length` header is case-safe. -/
lemma clHeaderLine_caseSafe (k : Nat) : ∀ c ∈ clHeaderLine k, caseSafe c := by
  intro c hc
  rcases List.mem_append.mp hc with h | h
  · fin_cases h <;> decide
  · obtain ⟨d, hd, rfl⟩ := (natDigits_spec k).2.1 c h
    interval_cases d <;> decide

/-- Any case variant of the `Content-Length` header keeps its `C`/`c`
    first letter. -/
lemma recase_head_cl (mask : List Bool) (k : Nat) :
    (recase mask (clHeaderLine k)).head? = some 'C'
      ∨ (recase mask (clHeaderLine k)).head? = some 'c' := by
  have hcons : clHeaderLine k = 'C' :: ("ontent-Length: ".toList ++ natDigits k) := by
    rw [clHeaderLine, (by rfl : "Content-Length: ".toList = 'C' :: "ontent-Length: ".toList)]
    simp
  rw [hcons]
  cases mask with
  | nil => left; rfl
  | cons u us =>
    cases u
    · right; simp [recase, asciiLower]
    · left; simp [recase, asciiUpper]

/-- Skipping a block of non-`Content-Length` headers. -/
lemma headerLoop_skipAll {hs : List (List Char)} (cs : List Char) (cl : Int)
    (hhs : ∀ h ∈ hs, GoodHeader h ∧ ¬IsCL h) :
    headerLoop (joinHeaders hs ++ cs) [] cl false = headerLoop cs [] cl false := by
  induction hs with
  | nil => simp [joinHeaders]
  | cons h t ih =>
    have hh := hhs h (by simp)
    rw [joinHeaders, List.foldr_cons, List.append_assoc,
      headerLoop_skip _ cl false hh.1 (Or.inr hh.2)]
    exact ih (fun h hm => hhs h (by simp [hm]))

/-- Once the length is found, every further header line is skipped. -/
lemma headerLoop_skipAllFound {hs : List (List Char)} (cs : List Char) (cl : Int)
    (hhs : ∀ h ∈ hs, GoodHeader h) :
    headerLoop (joinHeaders hs ++ cs) [] cl true = headerLoop cs [] cl true := by
  induction hs with
  | nil => simp [joinHeaders]
  | cons h t ih =>
    rw [joinHeaders, List.foldr_cons, List.append_assoc,
      headerLoop_skip _ cl true (hhs h (by simp)) (Or.inl rfl)]
    exact ih (fun h hm => hhs h (by simp [hm]))

/-! ### The master `parseStatus` lemmas -/

lemma headNotDigit_append_reason {reason : List Char} (hr : GoodReason reason)
    {tail : List Char} (htail : headNotDigit tail) : headNotDigit (reason ++ tail) := by
  cases reason with
  | nil => simpa using htail
  | cons a t =>
    intro c hc
    have hca : c = a := by simpa using hc
    rw [hca]
    exact hr.2 a (by simp)

/-- Scanning the encoded status line yields the encoded code. -/
lemma scanStatusLine_encode (code : Nat) {reason : List Char} (hr : GoodReason reason) :
    scanStatusLine (("HTTP/1.1 ".toList ++ natDigits code ++ reason ++ ['\r']) ++ ['\n'])
      = some (code : Int) := by
  have harr : ("HTTP/1.1 ".toList ++ natDigits code ++ reason ++ ['\r']) ++ ['\n']
      = "HTTP/1.1".toList ++ (' ' :: (natDigits code ++ (reason ++ ['\r', '\n']))) := by
    rw [(by rfl : "HTTP/1.1 ".toList = "HTTP/1.1".toList ++ [' '])]
    simp [List.append_assoc]
  have hni := @scanInt_natDigits code (reason ++ ['\r', '\n'])
    (headNotDigit_append_reason hr (by decide))
  rw [harr]
  simp only [scanStatusLine, stripPfx_append, dropSpaces_space, dropSpaces_natDigits, hni]

/-- The status line of an encoded response stays on one line. -/
lemma statusLine_no_newline (code : Nat) {reason : List Char} (hr : GoodReason reason) :
    '\n' ∉ "HTTP/1.1 ".toList ++ natDigits code ++ reason ++ ['\r'] := by
  intro hm
  rcases List.mem_append.mp hm with hm | hm
  · rcases List.mem_append.mp hm with hm | hm
    · rcases List.mem_append.mp hm with hm | hm
      · revert hm; decide
      · exact natDigits_no_newline code hm
    · exact hr.1 hm
  · simp at hm

/-- `parseStatus` on a well-formed response head declaring `Content-Length`
    `k`, followed by an arbitrary continuation `t`: the status code is
    returned and exactly `k` body bytes are discarded from `t`; if `t` is
    shorter than `k` the parse fails with `io.EOF`. -/
lemma parseStatus_encodeHead (code : Nat) (reason : List Char) (pre post : List (List Char))
    (k : Nat) (t : Stream') (hk : k < 2 ^ 63) (hr : GoodReason reason)
    (hpre : ∀ h ∈ pre, GoodHeader h ∧ ¬IsCL h) (hpost : ∀ h ∈ post, GoodHeader h) :
    parseStatus (encodeRespHead code reason pre post k ++ t)
      = if k ≤ t.length then (.ok (code : Int), t.drop k) else (.error .eof, []) := by
  have hsplit : encodeRespHead code reason pre post k ++ t
      = ("HTTP/1.1 ".toList ++ natDigits code ++ reason ++ ['\r']) ++ '\n'
          :: (joinHeaders pre ++ (encodeHeader (clHeaderLine k)
              ++ (joinHeaders post ++ (crlf ++ t)))) := by
    simp [encodeRespHead, encodeRespHeadWith, crlf, List.append_assoc]
  have hsplitNl := splitAtNewline_append
    (l := "HTTP/1.1 ".toList ++ natDigits code ++ reason ++ ['\r'])
    (joinHeaders pre ++ (encodeHeader (clHeaderLine k) ++ (joinHeaders post ++ (crlf ++ t))))
    (statusLine_no_newline code hr)
  have hhead : headerLoop (joinHeaders pre ++ (encodeHeader (clHeaderLine k)
      ++ (joinHeaders post ++ (crlf ++ t)))) [] 0 false = (.ok (k : Int), t) := by
    rw [headerLoop_skipAll _ _ hpre, headerLoop_cl k _ _ hk,
      headerLoop_skipAllFound _ _ hpost, headerLoop_terminator]
  have hdisc : discardN (k : Int) t
      = if k ≤ t.length then ((.ok () : Except PErr Unit), t.drop k) else (.error .eof, []) := by
    rw [discardN, if_neg (not_lt.mpr (Int.natCast_nonneg k))]
    simp [Int.toNat_natCast]
  rw [hsplit]
  simp only [parseStatus, hsplitNl, scanStatusLine_encode code hr, hhead, hdisc]
  by_cases hk : k ≤ t.length
  · rw [if_pos hk, if_pos hk]
  · rw [if_neg hk, if_neg hk]

/-- Generalisation of `parseStatus_encodeHead` to an arbitrary case
    variant of the `Content-Length` header line. -/
lemma parseStatus_encodeHeadWith (code : Nat) (reason : List Char)
    (pre post : List (List Char)) (k : Nat) (hdr : List Char) (t : Stream')
    (hr : GoodReason reason)
    (hpre : ∀ h ∈ pre, GoodHeader h ∧ ¬IsCL h) (hpost : ∀ h ∈ post, GoodHeader h)
    (hne : hdr ≠ []) (hnl : '\n' ∉ hdr) (hhlen : hdr.length ≤ 4094)
    (hlow : hdr.map asciiLower = (clHeaderLine k).map asciiLower)
    (hhead : hdr.head? = some 'C' ∨ hdr.head? = some 'c') :
    parseStatus (encodeRespHeadWith code reason pre post hdr ++ t)
      = if k ≤ t.length then (.ok (code : Int), t.drop k) else (.error .eof, []) := by
  have hsplit : encodeRespHeadWith code reason pre post hdr ++ t
      = ("HTTP/1.1 ".toList ++ natDigits code ++ reason ++ ['\r']) ++ '\n'
          :: (joinHeaders pre ++ (encodeHeader hdr ++ (joinHeaders post ++ (crlf ++ t)))) := by
    simp [encodeRespHeadWith, crlf, List.append_assoc]
  have hsplitNl := splitAtNewline_append
    (l := "HTTP/1.1 ".toList ++ natDigits code ++ reason ++ ['\r'])
    (joinHeaders pre ++ (encodeHeader hdr ++ (joinHeaders post ++ (crlf ++ t))))
    (statusLine_no_newline code hr)
  have hhl : headerLoop (joinHeaders pre ++ (encodeHeader hdr
      ++ (joinHeaders post ++ (crlf ++ t)))) [] 0 false = (.ok (k : Int), t) := by
    rw [headerLoop_skipAll _ _ hpre, headerLoop_cl_any k hdr _ 0 hne hnl hhlen hlow hhead,
      headerLoop_skipAllFound _ _ hpost, headerLoop_terminator]
  have hdisc : discardN (k : Int) t
      = if k ≤ t.length then ((.ok () : Except PErr Unit), t.drop k) else (.error .eof, []) := by
    rw [discardN, if_neg (not_lt.mpr (Int.natCast_nonneg k))]
    simp [Int.toNat_natCast]
  rw [hsplit]
  simp only [parseStatus, hsplitNl, scanStatusLine_encode code hr, hhl, hdisc]
  by_cases hk : k ≤ t.length
  · rw [if_pos hk, if_pos hk]
  · rw [if_neg hk, if_neg hk]

/-- A malformed first `Content-Length` value aborts `parseStatus` with an
    error (not `io.EOF`), leaving the stream after the offending line. -/
lemma parseStatus_badCL (code : Nat) (reason : List Char) (pre : List (List Char))
    (v : List Char) (t : Stream') (hr : GoodReason reason)
    (hpre : ∀ h ∈ pre, GoodHeader h ∧ ¬IsCL h) (hv : '\n' ∉ v) (hvlen : v.length ≤ 4079)
    (hscan : scanCLValue ((v.map asciiLower) ++ crlf) = none) :
    parseStatus ("HTTP/1.1 ".toList ++ natDigits code ++ reason ++ crlf
        ++ joinHeaders pre ++ encodeHeader ("Content-Length:".toList ++ v) ++ t)
      = (.error (.other "bad content-length"), t) := by
  have hsplit : "HTTP/1.1 ".toList ++ natDigits code ++ reason ++ crlf
        ++ joinHeaders pre ++ encodeHeader ("Content-Length:".toList ++ v) ++ t
      = ("HTTP/1.1 ".toList ++ natDigits code ++ reason ++ ['\r']) ++ '\n'
          :: (joinHeaders pre ++ (encodeHeader ("Content-Length:".toList ++ v) ++ t)) := by
    simp [crlf, List.append_assoc]
  have hsplitNl := splitAtNewline_append
    (l := "HTTP/1.1 ".toList ++ natDigits code ++ reason ++ ['\r'])
    (joinHeaders pre ++ (encodeHeader ("Content-Length:".toList ++ v) ++ t))
    (statusLine_no_newline code hr)
  have hhl : headerLoop (joinHeaders pre
      ++ (encodeHeader ("Content-Length:".toList ++ v) ++ t)) [] 0 false
      = (.error (.other "bad content-length"), t) := by
    rw [headerLoop_skipAll _ _ hpre, headerLoop_badCL v t 0 hv hvlen hscan]
  rw [hsplit]
  simp only [parseStatus, hsplitNl, scanStatusLine_encode code hr, hhl]

/-- Without a `Content-Length` header the body length defaults to zero:
    nothing is consumed after the blank line. -/
lemma parseStatus_encodeNoCL (code : Nat) (reason : List Char) (hs : List (List Char))
    (rest : Stream') (hr : GoodReason reason)
    (hhs : ∀ h ∈ hs, GoodHeader h ∧ ¬IsCL h) :
    parseStatus (encodeRespNoCL code reason hs ++ rest) = (.ok (code : Int), rest) := by
  have hsplit : encodeRespNoCL code reason hs ++ rest
      = ("HTTP/1.1 ".toList ++ natDigits code ++ reason ++ ['\r']) ++ '\n'
          :: (joinHeaders hs ++ (crlf ++ rest)) := by
    simp [encodeRespNoCL, crlf, List.append_assoc]
  have hsplitNl := splitAtNewline_append
    (l := "HTTP/1.1 ".toList ++ natDigits code ++ reason ++ ['\r'])
    (joinHeaders hs ++ (crlf ++ rest)) (statusLine_no_newline code hr)
  have hhl : headerLoop (joinHeaders hs ++ (crlf ++ rest)) [] 0 false
      = (.ok (0 : Int), rest) := by
    rw [headerLoop_skipAll _ _ hhs, headerLoop_terminator]
  have hdisc : discardN (0 : Int) rest = ((.ok () : Except PErr Unit), rest) := by
    rw [discardN, if_neg (by omega)]
    simp
  rw [hsplit]
  simp only [parseStatus, hsplitNl, scanStatusLine_encode code hr, hhl, hdisc]

/-- After a valid status line and any skipped headers, a header line whose
    first 4096 bytes contain no newline aborts the parse with
    `bufio.ErrBufferFull` — a non-EOF error — even though the stream may
    be merely truncated. -/
lemma parseStatus_bufferFull (code : Nat) (reason : List Char) (hs : List (List Char))
    (part : List Char) (hr : GoodReason reason)
    (hhs : ∀ h ∈ hs, GoodHeader h ∧ ¬IsCL h)
    (hpart : '\n' ∉ part.take 4096) (hlen : 4096 ≤ part.length) :
    parseStatus ("HTTP/1.1 ".toList ++ natDigits code ++ reason ++ crlf
        ++ joinHeaders hs ++ part)
      = (.error (.other "bufio: buffer full"), part.drop 4096) := by
  have hsplit : "HTTP/1.1 ".toList ++ natDigits code ++ reason ++ crlf
        ++ joinHeaders hs ++ part
      = ("HTTP/1.1 ".toList ++ natDigits code ++ reason ++ ['\r']) ++ '\n'
          :: (joinHeaders hs ++ part) := by
    simp [crlf, List.append_assoc]
  have hsplitNl := splitAtNewline_append
    (l := "HTTP/1.1 ".toList ++ natDigits code ++ reason ++ ['\r'])
    (joinHeaders hs ++ part) (statusLine_no_newline code hr)
  have hbf := headerLoop_bufferFull part [] 0 false
    (by simpa using hpart) (by simp) (by simpa using hlen)
  have hhl : headerLoop (joinHeaders hs ++ part) [] 0 false
      = (.error (.other "bufio: buffer full"), part.drop 4096) := by
    rw [headerLoop_skipAll _ _ hhs, hbf]
    simp
  rw [hsplit]
  simp only [parseStatus, hsplitNl, scanStatusLine_encode code hr, hhl]

/-- `parseStatus` on a complete well-formed response consumes exactly that
    response: it returns the status code and leaves the stream at `rest`. -/
lemma parseStatus_encode (code : Nat) (reason : List Char) (pre post : List (List Char))
    (body : List Char) (rest : Stream') (hb : body.length < 2 ^ 63) (hr : GoodReason reason)
    (hpre : ∀ h ∈ pre, GoodHeader h ∧ ¬IsCL h) (hpost : ∀ h ∈ post, GoodHeader h) :
    parseStatus (encodeResp code reason pre post body ++ rest) = (.ok (code : Int), rest) := by
  rw [encodeResp, List.append_assoc,
    parseStatus_encodeHead code reason pre post body.length (body ++ rest) hb hr hpre hpost,
    if_pos (by simp)]
  rw [List.drop_left]

/-! ### Probe-engine lemmas -/

lemma parseStatus_nil : parseStatus ([] : Stream') = (.error .eof, []) := rfl

/-- `ReadRequest` of the default prober (for the ids it is actually called
    with) converts a clean or mid-response `io.EOF` into
    `(expected = false, no error)`. -/
lemma optionsReadRequest_eof {s : Stream'} (id : Nat) (hid : id < 2)
    (hs : parseStatus s = (.error .eof, [])) :
    optionsReadRequest id s = (.ok false, []) := by
  rw [optionsReadRequest, if_neg (by omega : ¬2 ≤ id), hs]

/-- If the first response read hits `io.EOF` (clean closure or truncation),
    the whole default probe returns the verdict `false` with no error. -/
lemma probeOptions_eof {s : Stream'} (hs : parseStatus s = (.error .eof, [])) :
    Probe optionsProberGo none s = (.ok false, []) := by
  simp [Probe, probeLoop, optionsProberGo, optionsReadRequest_eof 0 (by omega) hs,
    optionsReadRequest_eof 1 (by omega) parseStatus_nil]

/-- If every write succeeds and every read in order succeeds with the
    booleans `oks`, the loop returns their conjunction and the final
    stream. -/
lemma probeLoop_ok : ∀ (p : GoProber) (k i : Nat) (s : Stream') (avail : Bool) (oks : List Bool),
    (∀ j, i ≤ j → j < i + k → p.writeErr j = none) →
    (readSeq p k i s).1 = oks.map Except.ok →
    probeLoop p k i s avail = (.ok (oks.foldl (· && ·) avail), (readSeq p k i s).2) := by
  intro p k
  induction k with
  | zero =>
    intro i s avail oks _ hr
    simp only [readSeq] at hr ⊢
    have : oks = [] := by
      cases oks with
      | nil => rfl
      | cons b t => simp at hr
    subst this
    rfl
  | succ k ih =>
    intro i s avail oks hw hr
    have hwi : p.writeErr i = none := hw i (le_refl i) (by omega)
    rcases hrr : p.readReq i s with ⟨r1, s1⟩
    simp only [readSeq, hrr] at hr
    cases oks with
    | nil => simp at hr
    | cons b t =>
      simp only [List.map_cons, List.cons.injEq] at hr
      obtain ⟨hr1, hrt⟩ := hr
      subst hr1
      have hrec := ih (i + 1) s1 (avail && b) t
        (fun j hj1 hj2 => hw j (by omega) (by omega)) hrt
      simp only [probeLoop, hwi, hrr, hrec, readSeq, List.foldl_cons]

/-- If some write fails or some in-order read fails, the loop aborts with
    one of those errors. -/
lemma probeLoop_err : ∀ (p : GoProber) (k i : Nat) (s : Stream') (avail : Bool),
    ((∃ j, i ≤ j ∧ j < i + k ∧ p.writeErr j ≠ none) ∨
      (∃ r ∈ (readSeq p k i s).1, ∀ b, r ≠ Except.ok b)) →
    ∃ e, (probeLoop p k i s avail).1 = Except.error e ∧
      ((∃ j, i ≤ j ∧ j < i + k ∧ p.writeErr j = some e) ∨
        (Except.error e) ∈ (readSeq p k i s).1) := by
  intro p k
  induction k with
  | zero =>
    intro i s avail hyp
    exfalso
    rcases hyp with ⟨j, hj1, hj2, _⟩ | ⟨r, hr, _⟩
    · omega
    · simp [readSeq] at hr
  | succ k ih =>
    intro i s avail hyp
    cases hwi : p.writeErr i with
    | some e =>
      refine ⟨e, ?_, Or.inl ⟨i, le_refl i, by omega, hwi⟩⟩
      simp only [probeLoop, hwi]
    | none =>
      rcases hrr : p.readReq i s with ⟨r1, s1⟩
      cases r1 with
      | error e =>
        refine ⟨e, ?_, Or.inr ?_⟩
        · simp only [probeLoop, hwi, hrr]
        · simp [readSeq, hrr]
      | ok b =>
        have hyp' : (∃ j, i + 1 ≤ j ∧ j < (i + 1) + k ∧ p.writeErr j ≠ none) ∨
            (∃ r ∈ (readSeq p k (i + 1) s1).1, ∀ b, r ≠ Except.ok b) := by
          rcases hyp with ⟨j, hj1, hj2, hj3⟩ | ⟨r, hr, hrb⟩
          · left
            refine ⟨j, ?_, by omega, hj3⟩
            rcases Nat.eq_or_lt_of_le hj1 with rfl | h
            · exact absurd hwi hj3
            · omega
          · right
            refine ⟨r, ?_, hrb⟩
            simp only [readSeq, hrr] at hr
            rcases List.mem_cons.mp hr with rfl | h
            · exact absurd rfl (hrb b)
            · exact h
        obtain ⟨e, he1, he2⟩ := ih (i + 1) s1 (avail && b) hyp'
        refine ⟨e, ?_, ?_⟩
        · simp only [probeLoop, hwi, hrr]
          exact he1
        · rcases he2 with ⟨j, hj1, hj2, hj3⟩ | hm
          · exact Or.inl ⟨j, by omega, by omega, hj3⟩
          · refine Or.inr ?_
            simp [readSeq, hrr, hm]

lemma mrun_succ_some {p : GoProber} {fe : Option PErr} {fuel : Nat} {st st' : MState}
    (h : mstep p fe st = some st') : mrun p fe (fuel + 1) st = mrun p fe fuel st' := by
  rw [mrun, h]

lemma mrun_stop (p : GoProber) (fe : Option PErr) :
    ∀ (fuel : Nat) (st : MState), st.res.isSome → mrun p fe fuel st = st
  | 0, _, _ => rfl
  | fuel + 1, st, h => by
    rw [mrun, mstep.eq_def, if_pos h]

/-- Writer phase: the writer goroutine writes requests `wi, wi+1, ...` in
    ascending order while the main goroutine stays blocked on the flush
    receive. -/
lemma mrun_writer (p : GoProber) (fe : Option PErr) :
    ∀ (m wi rest : Nat) (s : Stream') (tr : List Event), wi + m = p.numRequests →
    mrun p fe (m + rest) ⟨wi, false, false, 0, s, true, none, tr⟩
      = mrun p fe rest ⟨p.numRequests, false, false, 0, s, true, none,
          tr ++ (List.range' wi m).map Event.write⟩
  | 0, wi, rest, s, tr, h => by
    have hwi : wi = p.numRequests := by omega
    subst hwi
    simp
  | m + 1, wi, rest, s, tr, h => by
    have hwi : wi < p.numRequests := by omega
    have hstep : mstep p fe ⟨wi, false, false, 0, s, true, none, tr⟩
        = some ⟨wi + 1, false, false, 0, s, true, none, tr ++ [Event.write wi]⟩ := by
      rw [mstep.eq_def, if_neg (by simp), if_pos hwi]
    rw [(by omega : m + 1 + rest = (m + rest) + 1), mrun_succ_some hstep,
      mrun_writer p fe m (wi + 1) rest s (tr ++ [Event.write wi]) (by omega),
      List.range'_succ]
    simp

/-- Barrier phase: the writer executes the single flush, then the main
    goroutine receives it (the rendezvous of the unbuffered channel). -/
lemma mrun_prefix_none (p : GoProber) (rest : Nat) (s : Stream') (tr : List Event) :
    mrun p none (1 + (1 + rest)) ⟨p.numRequests, false, false, 0, s, true, none, tr⟩
      = mrun p none rest ⟨p.numRequests, true, true, 0, s, true, none, tr ++ [Event.flush]⟩ := by
  have h1 : mstep p none ⟨p.numRequests, false, false, 0, s, true, none, tr⟩
      = some ⟨p.numRequests, true, false, 0, s, true, none, tr ++ [Event.flush]⟩ := by
    rw [mstep.eq_def, if_neg (by simp), if_neg (lt_irrefl p.numRequests), if_pos (by simp)]
  have h2 : mstep p none ⟨p.numRequests, true, false, 0, s, true, none, tr ++ [Event.flush]⟩
      = some ⟨p.numRequests, true, true, 0, s, true, none, tr ++ [Event.flush]⟩ := by
    rw [mstep.eq_def, if_neg (by simp), if_neg (lt_irrefl p.numRequests), if_neg (by simp),
      if_pos (by simp)]
  rw [(by omega : 1 + (1 + rest) = rest + 1 + 1), mrun_succ_some h1, mrun_succ_some h2]

/-- Reader phase: after the barrier the main goroutine drains the write
    outcomes in FIFO order, reading responses in ascending id order; its
    result is exactly the sequential loop's, and the reads issued are
    `readIds`. -/
lemma mrun_reader (p : GoProber) :
    ∀ (k i : Nat) (s : Stream') (avail : Bool) (tr : List Event), i + k = p.numRequests →
    (mrun p none (k + 1) ⟨p.numRequests, true, true, i, s, avail, none, tr⟩).res
        = some (probeLoop p k i s avail)
    ∧ (mrun p none (k + 1) ⟨p.numRequests, true, true, i, s, avail, none, tr⟩).tr
        = tr ++ (readIds p k i s).map Event.read
  | 0, i, s, avail, tr, h => by
    have hstep : mstep p none ⟨p.numRequests, true, true, i, s, avail, none, tr⟩
        = some ⟨p.numRequests, true, true, i, s, avail, some (.ok avail, s), tr⟩ := by
      rw [mstep.eq_def, if_neg (by simp), if_neg (lt_irrefl p.numRequests), if_neg (by simp),
        if_neg (by simp), if_neg (show ¬(i < p.numRequests) by omega)]
    rw [mrun_succ_some hstep]
    exact ⟨rfl, by simp [mrun, readIds]⟩
  | k + 1, i, s, avail, tr, h => by
    have hri : i < p.numRequests := by omega
    cases hwi : p.writeErr i with
    | some e =>
      have hstep : mstep p none ⟨p.numRequests, true, true, i, s, avail, none, tr⟩
          = some ⟨p.numRequests, true, true, i, s, avail, some (.error e, s), tr⟩ := by
        rw [mstep.eq_def, if_neg (by simp), if_neg (lt_irrefl p.numRequests), if_neg (by simp),
          if_neg (by simp), if_pos hri, hwi]
      constructor
      · rw [mrun_succ_some hstep, mrun_stop p none _ _ (by simp)]
        simp only [probeLoop, hwi]
      · rw [mrun_succ_some hstep, mrun_stop p none _ _ (by simp)]
        simp [readIds, hwi]
    | none =>
      rcases hrr : p.readReq i s with ⟨r1, s1⟩
      cases r1 with
      | error e =>
        have hstep : mstep p none ⟨p.numRequests, true, true, i, s, avail, none, tr⟩
            = some ⟨p.numRequests, true, true, i, s1, avail, some (.error e, s1),
                tr ++ [Event.read i]⟩ := by
          rw [mstep.eq_def, if_neg (by simp), if_neg (lt_irrefl p.numRequests), if_neg (by simp),
            if_neg (by simp), if_pos hri, hwi, hrr]
        constructor
        · rw [mrun_succ_some hstep, mrun_stop p none _ _ (by simp)]
          simp only [probeLoop, hwi, hrr]
        · rw [mrun_succ_some hstep, mrun_stop p none _ _ (by simp)]
          simp [readIds, hwi, hrr]
      | ok b =>
        have hstep : mstep p none ⟨p.numRequests, true, true, i, s, avail, none, tr⟩
            = some ⟨p.numRequests, true, true, i + 1, s1, avail && b, none,
                tr ++ [Event.read i]⟩ := by
          rw [mstep.eq_def, if_neg (by simp), if_neg (lt_irrefl p.numRequests), if_neg (by simp),
            if_neg (by simp), if_pos hri, hwi, hrr]
        obtain ⟨ih1, ih2⟩ := mrun_reader p k (i + 1) s1 (avail && b)
          (tr ++ [Event.read i]) (by omega)
        constructor
        · rw [mrun_succ_some hstep, ih1]
          simp only [probeLoop, hwi, hrr]
        · rw [mrun_succ_some hstep, ih2]
          simp [readIds, hwi, hrr]

/-- `readIds` is always a block of consecutive ids starting at `i`. -/
lemma readIds_shape (p : GoProber) : ∀ (k i : Nat) (s : Stream'),
    ∃ j, j ≤ k ∧ readIds p k i s = List.range' i j
  | 0, _, _ => ⟨0, le_refl 0, rfl⟩
  | k + 1, i, s => by
    cases hwi : p.writeErr i with
    | some e => exact ⟨0, by omega, by simp [readIds, hwi]⟩
    | none =>
      rcases hrr : p.readReq i s with ⟨r1, s1⟩
      cases r1 with
      | error e =>
        refine ⟨1, by omega, ?_⟩
        simp [readIds, hwi, hrr, List.range'_succ]
      | ok b =>
        obtain ⟨j, hj, heq⟩ := readIds_shape p k (i + 1) s1
        refine ⟨j + 1, by omega, ?_⟩
        simp [readIds, hwi, hrr, heq, List.range'_succ]

/-- With no write failure and no read failure, every id is read. -/
lemma readIds_all (p : GoProber) : ∀ (k i : Nat) (s : Stream'),
    (∀ j, i ≤ j → j < i + k → p.writeErr j = none) →
    (∀ r ∈ (readSeq p k i s).1, ∃ b, r = Except.ok b) →
    readIds p k i s = List.range' i k
  | 0, _, _, _, _ => rfl
  | k + 1, i, s, hw, hr => by
    have hwi : p.writeErr i = none := hw i (le_refl i) (by omega)
    rcases hrr : p.readReq i s with ⟨r1, s1⟩
    have hmem : r1 ∈ (readSeq p (k + 1) i s).1 := by
      simp [readSeq, hrr]
    obtain ⟨b, rfl⟩ := hr r1 hmem
    have hrest : ∀ r ∈ (readSeq p k (i + 1) s1).1, ∃ b, r = Except.ok b := by
      intro r hm
      refine hr r ?_
      simp [readSeq, hrr, hm]
    rw [readIds, hwi]
    simp only [hrr]
    rw [readIds_all p k (i + 1) s1 (fun j h1 h2 => hw j (by omega) (by omega)) hrest,
      List.range'_succ]

/-- The machine's unique maximal run: result equals `Probe`'s, and the
    trace is all writes in ascending order, one flush, then the reads. -/
lemma mfinal_spec (p : GoProber) (s : Stream') :
    (mfinal p none s).res = some (Probe p none s) ∧
    (mfinal p none s).tr = (List.range p.numRequests).map Event.write ++ [Event.flush]
        ++ (readIds p p.numRequests 0 s).map Event.read := by
  have hfuel : 2 * p.numRequests + 3 = p.numRequests + (1 + (1 + (p.numRequests + 1))) := by
    omega
  rw [mfinal, minit, hfuel,
    mrun_writer p none p.numRequests 0 (1 + (1 + (p.numRequests + 1))) s [] (by omega),
    mrun_prefix_none]
  obtain ⟨h1, h2⟩ := mrun_reader p p.numRequests 0 s true
    (([] ++ (List.range' 0 p.numRequests).map Event.write) ++ [Event.flush]) (by omega)
  rw [h1, h2]
  refine ⟨rfl, ?_⟩
  simp [List.range_eq_range', List.append_assoc]

lemma collectResults_map : ∀ (bs : List Bool) (a : Bool),
    collectResults (bs.map Except.ok) a = .ok (bs.foldl (· && ·) a)
  | [], a => rfl
  | b :: t, a => by
    simp only [List.map_cons, collectResults, List.foldl_cons]
    exact collectResults_map t (a && b)

lemma foldl_and_eq_all (l : List Bool) (a : Bool) : l.foldl (· && ·) a = (a && l.all id) := by
  induction l generalizing a with
  | nil => simp
  | cons b t ih => simp [ih, Bool.and_assoc]

lemma all_id_congr {bs oks : List Bool} (h : ∀ x, x ∈ bs ↔ x ∈ oks) :
    bs.all id = oks.all id := by
  rw [Bool.eq_iff_iff]
  simp only [List.all_eq_true]
  constructor
  · intro hb x hx
    exact hb x ((h x).mpr hx)
  · intro ho x hx
    exact ho x ((h x).mp hx)

lemma eq_map_ok_of_forall {l : List (Except PErr Bool)}
    (h : ∀ r ∈ l, ∃ b, r = Except.ok b) : ∃ bs : List Bool, l = bs.map Except.ok := by
  induction l with
  | nil => exact ⟨[], rfl⟩
  | cons r t ih =>
    obtain ⟨b, rfl⟩ := h r (by simp)
    obtain ⟨bs, rfl⟩ := ih (fun r hr => h r (by simp [hr]))
    exact ⟨b :: bs, rfl⟩

lemma clHeaderLine_ne_nil (k : Nat) : clHeaderLine k ≠ [] := by
  intro h
  have := congrArg List.length h
  simp [clHeaderLine, (by rfl : ("Content-Length: ".toList).length = 16)] at this

lemma clHeaderLine_no_newline (k : Nat) : '\n' ∉ clHeaderLine k := by
  intro hm
  rcases List.mem_append.mp hm with h | h
  · revert h; decide
  · exact natDigits_no_newline k h

/-! ### Claim theorems -/

/-- C1: for every byte stream that begins with a well-formed HTTP/1.1
    response carrying `Content-Length: k` and exactly `k` body bytes,
    followed immediately by a second well-formed response, `parseStatus`
    returns the first response's status code and consumes exactly the
    first response's bytes (status line + headers + `k` body bytes), so
    that a subsequent call to `parseStatus` on the same stream
    successfully parses the second response. -/
theorem C1_parse_two_responses
    (c1 c2 : Nat) (r1 r2 : List Char) (p1 q1 p2 q2 : List (List Char))
    (b1 b2 : List Char) (rest : Stream')
    (_hc1 : c1 < 2 ^ 63) (_hc2 : c2 < 2 ^ 63)
    (hb1 : b1.length < 2 ^ 63) (hb2 : b2.length < 2 ^ 63)
    (hr1 : GoodReason r1) (hr2 : GoodReason r2)
    (hp1 : ∀ h ∈ p1, GoodHeader h ∧ ¬IsCL h) (hq1 : ∀ h ∈ q1, GoodHeader h)
    (hp2 : ∀ h ∈ p2, GoodHeader h ∧ ¬IsCL h) (hq2 : ∀ h ∈ q2, GoodHeader h) :
    parseStatus (encodeResp c1 r1 p1 q1 b1 ++ (encodeResp c2 r2 p2 q2 b2 ++ rest))
        = (.ok (c1 : Int), encodeResp c2 r2 p2 q2 b2 ++ rest)
    ∧ parseStatus (encodeResp c2 r2 p2 q2 b2 ++ rest) = (.ok (c2 : Int), rest) :=
  ⟨parseStatus_encode c1 r1 p1 q1 b1 _ hb1 hr1 hp1 hq1,
   parseStatus_encode c2 r2 p2 q2 b2 rest hb2 hr2 hp2 hq2⟩

/-- Witness for C1: the two concrete responses of the repository's own
    test file, back to back. -/
theorem C1_parse_two_responses_witness :
    parseStatus (encodeResp 200 " OK".toList ["Server: Apache".toList] [] []
        ++ (encodeResp 400 " Bad Request".toList [] [] "body".toList ++ []))
      = (.ok (200 : Int), encodeResp 400 " Bad Request".toList [] [] "body".toList ++ [])
    ∧ parseStatus (encodeResp 400 " Bad Request".toList [] [] "body".toList ++ [])
      = (.ok (400 : Int), []) :=
  C1_parse_two_responses 200 400 " OK".toList " Bad Request".toList
    ["Server: Apache".toList] [] [] [] [] "body".toList []
    (by decide) (by decide) (by decide) (by decide) (by decide) (by decide)
    (by decide) (by decide) (by decide) (by decide)

/-- C5: for every response whose header block contains no `Content-Length`
    header, `parseStatus` treats the body length as 0: it consumes nothing
    after the header-terminating blank line, and the next read from the
    stream resumes immediately after that blank line. -/
theorem C5_no_content_length_means_zero_body
    (code : Nat) (reason : List Char) (hs : List (List Char)) (rest : Stream')
    (_hc : code < 2 ^ 63) (hr : GoodReason reason)
    (hhs : ∀ h ∈ hs, GoodHeader h ∧ ¬IsCL h) :
    parseStatus (encodeRespNoCL code reason hs ++ rest) = (.ok (code : Int), rest) :=
  parseStatus_encodeNoCL code reason hs rest hr hhs

/-- Witness for C5: a concrete headerless-length response followed by
    further bytes. -/
theorem C5_no_content_length_means_zero_body_witness :
    parseStatus (encodeRespNoCL 200 " OK".toList ["Server: Apache".toList]
        ++ "next".toList)
      = (.ok (200 : Int), "next".toList) :=
  C5_no_content_length_means_zero_body 200 " OK".toList ["Server: Apache".toList]
    "next".toList (by decide) (by decide) (by decide)

/-- C2: for every prober with N requests and every stream, if no
    `WriteRequest` call and no `ReadRequest` call returns an error, `Probe`
    returns `(v, nil)` where `v` is the logical AND of the N `expected`
    booleans returned by `ReadRequest` for ids 0..N-1; and if any
    `WriteRequest` or `ReadRequest` returns an error, `Probe` returns
    `(false, that error)` — an error result whose error is one of the
    occurring ones — instead of a verdict. -/
theorem C2_probe_verdict_or_first_error (p : GoProber) (s : Stream') :
    (∀ oks : List Bool,
      (∀ i, i < p.numRequests → p.writeErr i = none) →
      (readSeq p p.numRequests 0 s).1 = oks.map Except.ok →
      Probe p none s = (.ok (oks.foldl (· && ·) true), (readSeq p p.numRequests 0 s).2))
    ∧ (((∃ i, i < p.numRequests ∧ p.writeErr i ≠ none) ∨
        (∃ r ∈ (readSeq p p.numRequests 0 s).1, ∀ b, r ≠ Except.ok b)) →
      ∃ e, (Probe p none s).1 = Except.error e ∧
        ((∃ i, i < p.numRequests ∧ p.writeErr i = some e) ∨
          Except.error e ∈ (readSeq p p.numRequests 0 s).1)) := by
  constructor
  · intro oks hw hr
    exact probeLoop_ok p p.numRequests 0 s true oks (fun j _ hj2 => hw j (by omega)) hr
  · intro hyp
    have hyp' : (∃ j, 0 ≤ j ∧ j < 0 + p.numRequests ∧ p.writeErr j ≠ none) ∨
        (∃ r ∈ (readSeq p p.numRequests 0 s).1, ∀ b, r ≠ Except.ok b) := by
      rcases hyp with ⟨i, hi, hne⟩ | h
      · exact Or.inl ⟨i, by omega, by omega, hne⟩
      · exact Or.inr h
    obtain ⟨e, he1, he2⟩ := probeLoop_err p p.numRequests 0 s true hyp'
    refine ⟨e, he1, ?_⟩
    rcases he2 with ⟨j, _, hj2, hj3⟩ | hm
    · exact Or.inl ⟨j, by omega, hj3⟩
    · exact Or.inr hm

/-- Witness for C2: the error-free branch on a stream with the expected
    200-then-400 answers, and the error branch on a garbage stream. -/
theorem C2_probe_verdict_or_first_error_witness :
    Probe optionsProberGo none
        ("HTTP/1.1 200 OK\r\nContent-Length: 0\r\n\r\nHTTP/1.1 400 Bad Request\r\nContent-Length: 0\r\n\r\n".toList)
      = (.ok true, [])
    ∧ ∃ e, (Probe optionsProberGo none ("GARBAGE\r\n\r\n".toList)).1 = Except.error e ∧
        ((∃ i, i < optionsProberGo.numRequests ∧ optionsProberGo.writeErr i = some e) ∨
          Except.error e ∈ (readSeq optionsProberGo optionsProberGo.numRequests 0
            ("GARBAGE\r\n\r\n".toList)).1) := by
  constructor
  · have h := (C2_probe_verdict_or_first_error optionsProberGo
        ("HTTP/1.1 200 OK\r\nContent-Length: 0\r\n\r\nHTTP/1.1 400 Bad Request\r\nContent-Length: 0\r\n\r\n".toList)).1
        [true, true] (fun i _ => rfl) (by decide)
    simpa using h
  · refine (C2_probe_verdict_or_first_error optionsProberGo ("GARBAGE\r\n\r\n".toList)).2
      (Or.inr ⟨Except.error (.other "malformed request: malformed status line (id=0)"),
        by decide, fun b hb => Except.noConfusion hb⟩)

/-- C3 counterexample: a stream that delivers the status line and headers
    of a response but only 2 of its declared 5 body bytes — a truncation
    in the middle of a response — does NOT surface an error from `Probe`:
    the probe returns the verdict `false` with no error, contradicting the
    claim that mid-body/mid-header/mid-status truncation is fatal. -/
theorem C3_counterexample_truncation_not_fatal :
    Probe optionsProberGo none ("HTTP/1.1 200 OK\r\nContent-Length: 5\r\n\r\nab".toList)
      = (.ok false, [])
    ∧ ∀ e, (Probe optionsProberGo none
        ("HTTP/1.1 200 OK\r\nContent-Length: 5\r\n\r\nab".toList)).1 ≠ .error e := by
  have h1 : Probe optionsProberGo none
      ("HTTP/1.1 200 OK\r\nContent-Length: 5\r\n\r\nab".toList) = (.ok false, []) := by
    decide
  refine ⟨h1, ?_⟩
  intro e he
  rw [h1] at he
  exact Except.noConfusion he

/-- C3 (amended): when the stream ends after some but not all bytes of a
    response — in the middle of the status line (no newline yet), in the
    middle of the header block with fewer than 4096 bytes of the partial
    header line pending, or before the full `Content-Length` body —
    `parseStatus` fails with `io.EOF` exactly as it does at a clean
    end-of-stream, `ReadRequest` converts that to `expected = false`, and
    `Probe` returns the verdict `false` with a nil error rather than
    surfacing an error.  The one exception (final conjunct): a header
    line whose first 4096 bytes contain no newline overflows the default
    `bufio` buffer, so `parseStatus` fails with `bufio.ErrBufferFull` —
    not `io.EOF` — and `Probe` surfaces that as a fatal error. -/
theorem C3_amended_truncation_gives_false_verdict :
    (∀ s : Stream', '\n' ∉ s → parseStatus s = (.error .eof, []))
    ∧ (∀ (code : Nat) (reason : List Char) (hs : List (List Char)) (part : List Char),
        code < 2 ^ 63 → GoodReason reason → (∀ h ∈ hs, GoodHeader h ∧ ¬IsCL h) →
        '\n' ∉ part → part.length ≤ 4095 →
        parseStatus ("HTTP/1.1 ".toList ++ natDigits code ++ reason ++ crlf
            ++ joinHeaders hs ++ part) = (.error .eof, []))
    ∧ (∀ (code : Nat) (reason : List Char) (pre post : List (List Char))
          (k : Nat) (avail : List Char),
        code < 2 ^ 63 → k < 2 ^ 63 → GoodReason reason →
        (∀ h ∈ pre, GoodHeader h ∧ ¬IsCL h) → (∀ h ∈ post, GoodHeader h) →
        avail.length < k →
        parseStatus (encodeRespHead code reason pre post k ++ avail) = (.error .eof, []))
    ∧ (∀ s : Stream', parseStatus s = (.error .eof, []) →
        Probe optionsProberGo none s = (.ok false, []))
    ∧ (∀ (code : Nat) (reason : List Char) (hs : List (List Char)) (part : List Char),
        code < 2 ^ 63 → GoodReason reason → (∀ h ∈ hs, GoodHeader h ∧ ¬IsCL h) →
        '\n' ∉ part.take 4096 → 4096 ≤ part.length →
        parseStatus ("HTTP/1.1 ".toList ++ natDigits code ++ reason ++ crlf
            ++ joinHeaders hs ++ part)
          = (.error (.other "bufio: buffer full"), part.drop 4096)
        ∧ ∃ e, Probe optionsProberGo none ("HTTP/1.1 ".toList ++ natDigits code
            ++ reason ++ crlf ++ joinHeaders hs ++ part)
          = (.error e, part.drop 4096)) := by
  refine ⟨?_, ?_, ?_, ?_, ?_⟩
  · intro s hs
    simp only [parseStatus, splitAtNewline_eq_none hs]
  · intro code reason hs part _ hr hhs hpart hplen
    have hsplit : "HTTP/1.1 ".toList ++ natDigits code ++ reason ++ crlf
          ++ joinHeaders hs ++ part
        = ("HTTP/1.1 ".toList ++ natDigits code ++ reason ++ ['\r']) ++ '\n'
            :: (joinHeaders hs ++ part) := by
      simp [crlf, List.append_assoc]
    have hsplitNl := splitAtNewline_append
      (l := "HTTP/1.1 ".toList ++ natDigits code ++ reason ++ ['\r'])
      (joinHeaders hs ++ part) (statusLine_no_newline code hr)
    have hhl : headerLoop (joinHeaders hs ++ part) [] 0 false = (.error .eof, []) := by
      rw [headerLoop_skipAll _ _ hhs,
        headerLoop_eof part [] 0 false hpart (by simpa using hplen)]
    rw [hsplit]
    simp only [parseStatus, hsplitNl, scanStatusLine_encode code hr, hhl]
  · intro code reason pre post k avail _ hk hr hpre hpost hlen
    rw [parseStatus_encodeHead code reason pre post k avail hk hr hpre hpost,
      if_neg (by omega)]
  · intro s hs
    exact probeOptions_eof hs
  · intro code reason hs part _ hr hhs hpart hlen
    have hps := parseStatus_bufferFull code reason hs part hr hhs hpart hlen
    set str := "HTTP/1.1 ".toList ++ natDigits code ++ reason ++ crlf
      ++ joinHeaders hs ++ part
    refine ⟨hps, ?_⟩
    refine ⟨.other ("malformed request: " ++ "bufio: buffer full"
        ++ " (id=" ++ toString (0 : Nat) ++ ")"), ?_⟩
    have h0 : optionsReadRequest 0 str
        = (.error (.other ("malformed request: " ++ "bufio: buffer full"
            ++ " (id=" ++ toString (0 : Nat) ++ ")")), part.drop 4096) := by
      rw [optionsReadRequest, if_neg (by omega : ¬(2 : Nat) ≤ 0), hps]
    simp [Probe, probeLoop, optionsProberGo, h0]

/-- Witness for C3 (amended): concrete truncations in the status line, the
    header block and the body, each giving `io.EOF` and a `false` verdict,
    and a 4096-byte partial header line giving the buffer-full error. -/
theorem C3_amended_truncation_gives_false_verdict_witness :
    parseStatus ("HTT".toList) = (.error .eof, [])
    ∧ parseStatus ("HTTP/1.1 ".toList ++ natDigits 200 ++ [] ++ crlf
        ++ joinHeaders [] ++ "Server: Ap".toList) = (.error .eof, [])
    ∧ parseStatus (encodeRespHead 200 [] [] [] 5 ++ "ab".toList) = (.error .eof, [])
    ∧ Probe optionsProberGo none ("HTT".toList) = (.ok false, [])
    ∧ (parseStatus ("HTTP/1.1 ".toList ++ natDigits 200 ++ [] ++ crlf
          ++ joinHeaders [] ++ List.replicate 4096 'x')
        = (.error (.other "bufio: buffer full"), (List.replicate 4096 'x').drop 4096)
      ∧ ∃ e, Probe optionsProberGo none ("HTTP/1.1 ".toList ++ natDigits 200 ++ []
            ++ crlf ++ joinHeaders [] ++ List.replicate 4096 'x')
        = (.error e, (List.replicate 4096 'x').drop 4096)) := by
  refine ⟨C3_amended_truncation_gives_false_verdict.1 ("HTT".toList) (by decide),
    C3_amended_truncation_gives_false_verdict.2.1 200 [] [] ("Server: Ap".toList)
      (by decide) (by decide) (by decide) (by decide) (by decide),
    C3_amended_truncation_gives_false_verdict.2.2.1 200 [] [] [] 5 ("ab".toList)
      (by decide) (by decide) (by decide) (by decide) (by decide) (by decide),
    C3_amended_truncation_gives_false_verdict.2.2.2.1 ("HTT".toList) (by decide),
    C3_amended_truncation_gives_false_verdict.2.2.2.2 200 [] [] (List.replicate 4096 'x')
      (by decide) (by decide) (by decide)
      (by rw [List.take_replicate]
          intro h
          exact absurd (List.eq_of_mem_replicate h) (by decide))
      (by rw [List.length_replicate])⟩

/-- C4: for every probe in which the stream ends cleanly at a response
    boundary before a given response (zero bytes of it seen),
    `ReadRequest` — for the ids it is actually called with, 0 and 1; Go
    panics before reading on any other id — returns
    `(expected = false, no error)`, and a default probe over a stream
    containing exactly one well-formed response ends with the overall
    verdict `false` and a nil error rather than a failure. -/
theorem C4_clean_closure_is_false_verdict
    (code : Nat) (reason : List Char) (pre post : List (List Char)) (body : List Char)
    (_hc : code < 2 ^ 63) (hb : body.length < 2 ^ 63) (hr : GoodReason reason)
    (hpre : ∀ h ∈ pre, GoodHeader h ∧ ¬IsCL h) (hpost : ∀ h ∈ post, GoodHeader h) :
    (∀ id : Nat, id < 2 → optionsReadRequest id [] = (.ok false, []))
    ∧ Probe optionsProberGo none (encodeResp code reason pre post body)
        = (.ok false, []) := by
  constructor
  · intro id hid
    exact optionsReadRequest_eof id hid parseStatus_nil
  · have h0 : parseStatus (encodeResp code reason pre post body)
        = (.ok (code : Int), []) := by
      have h := parseStatus_encode code reason pre post body [] hb hr hpre hpost
      simpa using h
    have hr0 : optionsReadRequest 0 (encodeResp code reason pre post body)
        = (.ok ((code : Int) == 200), []) := by
      simp [optionsReadRequest, h0]
    have hr1 : optionsReadRequest 1 ([] : Stream') = (.ok false, []) :=
      optionsReadRequest_eof 1 (by omega) parseStatus_nil
    simp [Probe, probeLoop, optionsProberGo, hr0, hr1]

/-- Witness for C4: `ReadRequest` at id 1 on the empty stream, and the
    stream carrying exactly one 200 response. -/
theorem C4_clean_closure_is_false_verdict_witness :
    optionsReadRequest 1 [] = (.ok false, [])
    ∧ Probe optionsProberGo none (encodeResp 200 " OK".toList [] [] [])
        = (.ok false, []) :=
  ⟨(C4_clean_closure_is_false_verdict 200 " OK".toList [] [] []
      (by decide) (by decide) (by decide) (by decide) (by decide)).1 1 (by decide),
   (C4_clean_closure_is_false_verdict 200 " OK".toList [] [] []
      (by decide) (by decide) (by decide) (by decide) (by decide)).2⟩

/-- C7: for the default two-request strategy (expect 200 for id 0 and 400
    for id 1), probing a stream whose two well-formed responses carry
    statuses 400 then 200 yields the verdict `false`: response order
    relative to request order matters, not the multiset of statuses. -/
theorem C7_response_order_matters
    (r1 r2 : List Char) (p1 q1 p2 q2 : List (List Char)) (b1 b2 : List Char)
    (hb1 : b1.length < 2 ^ 63) (hb2 : b2.length < 2 ^ 63)
    (hr1 : GoodReason r1) (hr2 : GoodReason r2)
    (hp1 : ∀ h ∈ p1, GoodHeader h ∧ ¬IsCL h) (hq1 : ∀ h ∈ q1, GoodHeader h)
    (hp2 : ∀ h ∈ p2, GoodHeader h ∧ ¬IsCL h) (hq2 : ∀ h ∈ q2, GoodHeader h) :
    Probe optionsProberGo none
        (encodeResp 400 r1 p1 q1 b1 ++ encodeResp 200 r2 p2 q2 b2)
      = (.ok false, []) := by
  have h0 : parseStatus (encodeResp 400 r1 p1 q1 b1 ++ encodeResp 200 r2 p2 q2 b2)
      = (.ok (400 : Int), encodeResp 200 r2 p2 q2 b2) :=
    parseStatus_encode 400 r1 p1 q1 b1 _ hb1 hr1 hp1 hq1
  have h1 : parseStatus (encodeResp 200 r2 p2 q2 b2) = (.ok (200 : Int), []) := by
    have h := parseStatus_encode 200 r2 p2 q2 b2 [] hb2 hr2 hp2 hq2
    simpa using h
  have hr0 : optionsReadRequest 0
      (encodeResp 400 r1 p1 q1 b1 ++ encodeResp 200 r2 p2 q2 b2)
      = (.ok false, encodeResp 200 r2 p2 q2 b2) := by
    simp [optionsReadRequest, h0]
  have hr1' : optionsReadRequest 1 (encodeResp 200 r2 p2 q2 b2) = (.ok false, []) := by
    simp [optionsReadRequest, h1]
  simp [Probe, probeLoop, optionsProberGo, hr0, hr1']

/-- Witness for C7: concrete 400-then-200 responses. -/
theorem C7_response_order_matters_witness :
    Probe optionsProberGo none
        (encodeResp 400 " Bad Request".toList [] [] []
          ++ encodeResp 200 " OK".toList [] [] [])
      = (.ok false, []) :=
  C7_response_order_matters " Bad Request".toList " OK".toList [] [] [] [] [] []
    (by decide) (by decide) (by decide) (by decide) (by decide) (by decide)
    (by decide) (by decide)

/-- C8: in every execution of `Probe` (the two-goroutine machine has a
    single enabled transition in every non-final state, so its unique
    maximal run covers all schedules), `WriteRequest` is called for ids
    0..N-1 in strictly ascending order, the sink is flushed exactly once
    after the last request and before any read, and `ReadRequest` is then
    called in strictly ascending id order with no interleaved writes — on
    all of 0..N-1 whenever no write and no read fails. -/
theorem C8_pipelined_event_order (p : GoProber) (s : Stream') :
    ∃ k, k ≤ p.numRequests ∧
      (mfinal p none s).tr
        = (List.range p.numRequests).map Event.write ++ [Event.flush]
            ++ (List.range k).map Event.read
      ∧ ((∀ i, i < p.numRequests → p.writeErr i = none) →
          (∀ r ∈ (readSeq p p.numRequests 0 s).1, ∃ b, r = Except.ok b) →
          k = p.numRequests) := by
  obtain ⟨_, h2⟩ := mfinal_spec p s
  obtain ⟨j, hj, heq⟩ := readIds_shape p p.numRequests 0 s
  refine ⟨j, hj, ?_, ?_⟩
  · rw [h2, heq, List.range_eq_range', List.range_eq_range']
  · intro hw hr
    have hall := readIds_all p p.numRequests 0 s (fun i _ hi => hw i (by omega)) hr
    rw [hall] at heq
    have hlen := congrArg List.length heq
    simp [List.length_range'] at hlen
    omega

/-- Witness for C8: the default prober against the well-formed
    200-then-400 stream reads both responses after writing and flushing. -/
theorem C8_pipelined_event_order_witness :
    ∃ k, k ≤ optionsProberGo.numRequests ∧
      (mfinal optionsProberGo none
          ("HTTP/1.1 200 OK\r\nContent-Length: 0\r\n\r\nHTTP/1.1 400 Bad Request\r\nContent-Length: 0\r\n\r\n".toList)).tr
        = (List.range optionsProberGo.numRequests).map Event.write ++ [Event.flush]
            ++ (List.range k).map Event.read
      ∧ ((∀ i, i < optionsProberGo.numRequests → optionsProberGo.writeErr i = none) →
          (∀ r ∈ (readSeq optionsProberGo optionsProberGo.numRequests 0
              ("HTTP/1.1 200 OK\r\nContent-Length: 0\r\n\r\nHTTP/1.1 400 Bad Request\r\nContent-Length: 0\r\n\r\n".toList)).1,
            ∃ b, r = Except.ok b) →
          k = optionsProberGo.numRequests) :=
  C8_pipelined_event_order optionsProberGo
    ("HTTP/1.1 200 OK\r\nContent-Length: 0\r\n\r\nHTTP/1.1 400 Bad Request\r\nContent-Length: 0\r\n\r\n".toList)

/-- C9: calling `Probe` with a prober whose `NumRequests` returns 0
    performs no `WriteRequest` and no `ReadRequest` call (the trace is the
    lone flush of the empty buffer), consumes nothing from the stream, and
    returns `(true, nil)` — the empty conjunction yields a `true` verdict. -/
theorem C9_zero_requests_true_verdict (p : GoProber) (s : Stream')
    (h0 : p.numRequests = 0) :
    Probe p none s = (.ok true, s) ∧ (mfinal p none s).tr = [Event.flush] := by
  constructor
  · show probeLoop p p.numRequests 0 s true = (.ok true, s)
    rw [h0]
    rfl
  · obtain ⟨_, h2⟩ := mfinal_spec p s
    rw [h2, h0]
    simp [readIds]

/-- Witness for C9: the zero-request prober over a nonempty stream. -/
theorem C9_zero_requests_true_verdict_witness :
    Probe emptyProber none ("leftover".toList) = (.ok true, "leftover".toList)
    ∧ (mfinal emptyProber none ("leftover".toList)).tr = [Event.flush] :=
  C9_zero_requests_true_verdict emptyProber ("leftover".toList) rfl

/-- C10: for every deterministic prober and every stream on which no
    `WriteRequest` or `ReadRequest` operation fails, the two
    implementations of `Probe` — the writer-goroutine-with-flush-barrier
    version and the `textproto.Pipeline` version, whose collector may see
    the per-goroutine results in any arrival order — return the same
    boolean verdict and a nil error. -/
theorem C10_both_probe_implementations_agree (p : GoProber) (s : Stream')
    (oks : List Bool) (arrival : List (Except PErr Bool))
    (hw : ∀ i, i < p.numRequests → p.writeErr i = none)
    (hr : pipelineResults p s = oks.map Except.ok)
    (ha : arrival.Perm (pipelineResults p s)) :
    (Probe p none s).1 = .ok (oks.foldl (· && ·) true)
    ∧ collectResults arrival true = .ok (oks.foldl (· && ·) true) := by
  constructor
  · have h := probeLoop_ok p p.numRequests 0 s true oks
      (fun j _ hj => hw j (by omega)) hr
    show (probeLoop p p.numRequests 0 s true).1 = _
    rw [h]
  · have hall : ∀ r ∈ arrival, ∃ b, r = Except.ok b := by
      intro r hm
      have hmem : r ∈ pipelineResults p s := ha.mem_iff.mp hm
      rw [hr] at hmem
      obtain ⟨b, _, rfl⟩ := List.mem_map.mp hmem
      exact ⟨b, rfl⟩
    obtain ⟨bs, rfl⟩ := eq_map_ok_of_forall hall
    rw [collectResults_map]
    congr 1
    rw [foldl_and_eq_all, foldl_and_eq_all]
    simp only [Bool.true_and]
    apply all_id_congr
    intro x
    constructor
    · intro hx
      have hmem : Except.ok x ∈ pipelineResults p s :=
        ha.mem_iff.mp (List.mem_map_of_mem _ hx)
      rw [hr] at hmem
      obtain ⟨y, hy, heq⟩ := List.mem_map.mp hmem
      cases heq
      exact hy
    · intro hx
      have h1 : Except.ok x ∈ pipelineResults p s := by
        rw [hr]
        exact List.mem_map_of_mem _ hx
      have h2 : Except.ok x ∈ bs.map Except.ok := ha.mem_iff.mpr h1
      obtain ⟨y, hy, heq⟩ := List.mem_map.mp h2
      cases heq
      exact hy

/-- Witness for C10: the default prober against the expected
    200-then-400 stream, with the collector receiving the two results in
    reversed arrival order. -/
theorem C10_both_probe_implementations_agree_witness :
    (Probe optionsProberGo none
        ("HTTP/1.1 200 OK\r\nContent-Length: 0\r\n\r\nHTTP/1.1 400 Bad Request\r\nContent-Length: 0\r\n\r\n".toList)).1
      = .ok ([true, true].foldl (· && ·) true)
    ∧ collectResults [Except.ok true, Except.ok true] true
      = .ok ([true, true].foldl (· && ·) true) :=
  C10_both_probe_implementations_agree optionsProberGo
    ("HTTP/1.1 200 OK\r\nContent-Length: 0\r\n\r\nHTTP/1.1 400 Bad Request\r\nContent-Length: 0\r\n\r\n".toList)
    [true, true] [Except.ok true, Except.ok true]
    (fun _ _ => rfl) (by decide) (by decide)

end HttpPipelining
